import Mathlib

/-!
A shallow embedding of the cross-crate reachability collector in
`kani-compiler/src/codegen_cprover_gotoc/reachability.rs`.

Modelling conventions:
* Machine identifiers (`DefId`, `AllocId`, substitution lists, fingerprints)
  are `Nat`s.
* The compiler context `TyCtxt` together with the external services it offers
  (body access, instance resolution, constant evaluation, vtable tables,
  allocations) is a record of functions, `Ctx`.
* `monomorphize` (`subst_mir_and_normalize_erasing_regions`) is an external
  substitution service; bodies handed out by `Ctx.instanceBody` carry values
  that are already monomorphized for that instance, so the scanner does not
  re-apply it.
* Panicking paths of the source (`unwrap`, `expect`, `assert!`,
  `unreachable!`, `span_bug!`) are modelled with `Except`: a panic aborts the
  whole traversal with a `CollectError`.
* The two recursions that the source runs on data of statically unknown depth
  (the worklist loop and `collect_alloc_items`) take an explicit fuel
  argument; running out of fuel is the distinguished error
  `CollectError.outOfFuel`, and termination statements say that enough fuel
  makes this error impossible.
* `FxHashSet` iteration order (used when the per-function collector set is
  drained into the queue and when the final set is turned into a vector) is
  not determined by the source; it is a parameter `enum` of the engine,
  constrained only to enumerate exactly the set's elements.  Likewise the
  position popped from the worklist is a parameter `pick`; the source's
  `Vec::pop` is `pickLast`.
-/

namespace KaniReachability

/-- The `InstanceDef` variants of the compiler IR that the collector
distinguishes (`rustc_middle::ty::InstanceDef`).  `dropGlueNone` is
`DropGlue(_, None)` (drop glue for a type with no drop code) and
`dropGlueSome` is `DropGlue(_, Some(_))`. -/
inductive InstanceDefKind where
  | item
  | virtualDef
  | intrinsic
  | dropGlueNone
  | dropGlueSome
  | cloneShim
  | closureOnceShim
  | fnPtrShim
  | reifyShim
  | vtableShim
  deriving DecidableEq

/-- A monomorphic instance: an `InstanceDef` (kind + originating `DefId`)
together with a fully ground substitution, identified by a code. -/
structure Instance where
  defKind : InstanceDefKind
  defId : Nat
  substs : Nat
  deriving DecidableEq

/-- `Instance::mono(tcx, def_id)`: the instance of a definition with the
empty substitution; its `InstanceDef` is `Item`. -/
def Instance.mono (defId : Nat) : Instance :=
  { defKind := InstanceDefKind.item, defId := defId, substs := 0 }

/-- `rustc_middle::mir::mono::MonoItem`: a function instance, a static
variable, or a global assembly block. -/
inductive MonoItem where
  | fn (inst : Instance)
  | staticVar (defId : Nat)
  | globalAsm (itemId : Nat)
  deriving DecidableEq

instance : Inhabited MonoItem := ⟨MonoItem.globalAsm 0⟩

/-- The fragment of `rustc_middle::ty::Ty` exercised by the collector's
unsizing analysis: sized concrete types, trait objects (`Dynamic`, with an
optional principal trait), and one layer of pointer indirection (`Ref`,
`RawPtr` and `Box` are not distinguished, since `find_vtable_types_for_unsizing`
treats the three pointer-shaped arms identically).  ADT wrappers with a
`CoerceUnsized` field are outside this modelled universe, so the
corresponding source arm collapses into the unreachable case. -/
inductive Ty where
  | concrete (id : Nat)
  | dynamic (principal : Option Nat)
  | ref (pointee : Ty)
  deriving DecidableEq

/-- `Ty::is_trait`: true exactly for `TyKind::Dynamic`. -/
def Ty.isTrait : Ty → Bool
  | Ty.dynamic _ => true
  | _ => false

/-- `Ty::is_sized`: in the modelled universe only trait objects are unsized. -/
def Ty.isSized : Ty → Bool
  | Ty.dynamic _ => false
  | _ => true

/-- `rustc_middle::ty::VtblEntry`. -/
inductive VtblEntry where
  | metadataAlign
  | metadataDropInPlace
  | metadataSize
  | vacant
  | traitVPtr
  | method (inst : Instance)
  deriving DecidableEq

/-- `rustc_middle::mir::interpret::GlobalAlloc`: what an `AllocId` points to.
`memory` carries the provenance values (the embedded `AllocId`s) of the
allocation's bytes; `vtableAlloc` carries the (type, trait) pair whose vtable
allocation is materialized by `tcx.vtable_allocation`. -/
inductive GlobalAllocKind where
  | staticAlloc (defId : Nat)
  | functionAlloc (inst : Instance)
  | memory (provenance : List Nat)
  | vtableAlloc (ty : Ty) (traitId : Nat)
  deriving DecidableEq

/-- The `ConstValue` shapes inspected by `collect_const_value`.  `scalarPtr`
is `Scalar(Scalar::Ptr(ptr, _))` carrying the pointer's provenance `AllocId`;
`slice` and `byRef` carry the provenance values of their allocation's bytes;
every other shape falls into the source's `_ => {}` arm. -/
inductive ConstValue where
  | scalarPtr (provenance : Nat)
  | slice (provenance : List Nat)
  | byRef (provenance : List Nat)
  | other
  deriving DecidableEq

/-- Result of `tcx.const_eval_resolve` on an unevaluated constant:
success, `Err(ErrorHandled::TooGeneric)`, or an error that was already
reported upstream. -/
inductive EvalResult where
  | ok (value : ConstValue)
  | tooGeneric
  | reported
  deriving DecidableEq

/-- The `ConstKind` variants matched by `visit_constant` for a
`ConstantKind::Ty` literal.  `value` carries the result of
`tcx.valtree_to_const_val` (a pure conversion, folded in); `unevaluated`
carries a code that `Ctx.constEvalResolve` maps to the evaluation outcome. -/
inductive ConstKindE where
  | value (v : ConstValue)
  | unevaluated (uneval : Nat)
  | param
  | infer
  | errorK
  | placeholder
  | bound
  deriving DecidableEq

/-- `rustc_middle::mir::ConstantKind` (the `literal` of a constant operand),
already monomorphized. -/
inductive Literal where
  | val (v : ConstValue)
  | tyConst (k : ConstKindE)
  deriving DecidableEq

/-- The monomorphized type of a call's callee operand: a `FnDef` (with its
definition and substitution), a function pointer, or anything else (which the
source asserts cannot happen). -/
inductive CallTyE where
  | fnDef (defId : Nat) (substs : Nat)
  | fnPtr
  | otherTy
  deriving DecidableEq

/-- The monomorphized type of the operand of a `ReifyFnPointer` cast. -/
inductive FnTyE where
  | fnDef (defId : Nat) (substs : Nat)
  | notFnDef
  deriving DecidableEq

/-- The monomorphized type of the operand of a `ClosureFnPointer` cast. -/
inductive ClosureSrcE where
  | closureTy (defId : Nat) (substs : Nat)
  | notClosure
  deriving DecidableEq

/-- The rvalue shapes inspected by `visit_rvalue`; every rvalue that is not
one of the four interesting casts/references falls into `otherRvalue`
(the source's `_ => {}` arm).  Types carried here are the monomorphized
source/target types of the cast. -/
inductive RvalueE where
  | castUnsize (sourceTy : Ty) (targetTy : Ty)
  | castReifyFnPtr (fnTy : FnTyE)
  | castClosureFnPtr (sourceTy : ClosureSrcE)
  | threadLocalRef (defId : Nat)
  | otherRvalue
  deriving DecidableEq

/-- The terminator kinds matched by `visit_terminator`.  `drop` and
`dropAndReplace` carry the monomorphized type of the dropped place. -/
inductive TerminatorE where
  | call (funcTy : CallTyE)
  | drop (placeTy : Ty)
  | dropAndReplace (placeTy : Ty)
  | inlineAsm
  | abort
  | assertT
  | goto
  | switchInt
  | resume
  | ret
  | unreachableT
  | generatorDrop
  | yieldT
  | falseEdge
  | falseUnwind
  deriving DecidableEq

/-- One visit of the MIR visitor over a body: the visitor walks every
statement and terminator, and the interesting callbacks are `visit_rvalue`,
`visit_constant` and `visit_terminator`.  A body is flattened into the
sequence of arguments these callbacks receive. -/
inductive Event where
  | rvalue (rv : RvalueE)
  | constant (lit : Literal)
  | terminator (t : TerminatorE)
  deriving DecidableEq

/-- The ways a traversal can abort.  Each constructor corresponds to a
panicking path of the source (plus `outOfFuel`, the artifact of modelling
the two unbounded recursions with fuel). -/
inductive CollectError where
  /-- `Instance::resolve(..).unwrap().unwrap()` failed on a direct call. -/
  | ambiguousOrMissingCallResolution
  /-- `span_bug!` on `ErrorHandled::TooGeneric`: a polymorphic constant. -/
  | ungroundedConstant
  /-- `unreachable!("Unexpected at this MIR level")` on generator edges. -/
  | unexpectedTerminator
  /-- `assert!(matches!(fn_ty.kind(), TyKind::FnPtr(..)))` failed. -/
  | unexpectedCallType
  /-- `unreachable!` in the reify / closure cast arms, or the
  `assert!(is_direct_call)` for `Virtual`/`Intrinsic` in `collect_instance`,
  or the two type asserts of `collect_vtable_methods`. -/
  | assertionFailure
  /-- thread-local asserts: `assert!(is_thread_local_static)` in
  `visit_rvalue` and `assert!(!is_thread_local_static)` in
  `collect_alloc_items`. -/
  | threadLocalAssert
  /-- `tcx.eval_static_initializer(def_id).unwrap()` failed. -/
  | evalStaticFailed
  /-- `unreachable!` on an invalid unsizing coercion
  (`find_vtable_types_for_unsizing`). -/
  | invalidCoercion
  /-- `unreachable!("unexpected unsized tail")`. -/
  | unexpectedUnsizedTail
  /-- `unreachable!` on `ConstKind::Placeholder`/`Bound`. -/
  | unexpectedConstKind
  /-- fuel exhausted (modelling artifact, see the file comment). -/
  | outOfFuel
  deriving DecidableEq

instance {e a : Type} [DecidableEq e] [DecidableEq a] : DecidableEq (Except e a) :=
  fun x y =>
    match x, y with
    | Except.ok u, Except.ok v =>
        if h : u = v then Decidable.isTrue (by rw [h])
        else Decidable.isFalse (fun hc => h (by injection hc))
    | Except.error u, Except.error v =>
        if h : u = v then Decidable.isTrue (by rw [h])
        else Decidable.isFalse (fun hc => h (by injection hc))
    | Except.ok _, Except.error _ => Decidable.isFalse (fun hc => Except.noConfusion hc)
    | Except.error _, Except.ok _ => Decidable.isFalse (fun hc => Except.noConfusion hc)

/-- The compiler context: `TyCtxt` plus the external services of the spec's
section 6 (body accessor, type/substitution service, implementation-table
builder), as a record of pure functions. -/
structure Ctx where
  /-- `tcx.is_foreign_item`. -/
  isForeignItem : Nat → Bool
  /-- `tcx.is_mir_available`. -/
  isMirAvailable : Nat → Bool
  /-- `tcx.is_thread_local_static`. -/
  isThreadLocalStatic : Nat → Bool
  /-- `Instance::polymorphize`. -/
  polymorphize : Instance → Instance
  /-- `Instance::resolve(tcx, reveal_all, def_id, substs)`:
  `Result<Option<Instance>, ErrorHandled>` as `Option (Option Instance)`. -/
  resolveFn : Nat → Nat → Option (Option Instance)
  /-- `Instance::resolve_for_fn_ptr`. -/
  resolveForFnPtr : Nat → Nat → Option Instance
  /-- `Instance::resolve_closure` with `ClosureKind::FnOnce`. -/
  resolveClosure : Nat → Nat → Option Instance
  /-- `Instance::resolve_drop_in_place`. -/
  resolveDropInPlace : Ty → Instance
  /-- `tcx.vtable_entries` applied to the principal trait with the given
  self type: the ordered implementation table. -/
  vtableEntries : Nat → Ty → List VtblEntry
  /-- `tcx.global_alloc`. -/
  globalAlloc : Nat → GlobalAllocKind
  /-- `tcx.vtable_allocation`. -/
  vtableAllocation : Ty → Nat → Nat
  /-- `tcx.eval_static_initializer`, reduced to the provenance values of the
  resulting allocation (`alloc.inner().provenance().values()`); `none` is an
  evaluation error. -/
  evalStaticInitializer : Nat → Option (List Nat)
  /-- `tcx.const_eval_resolve` on an unevaluated constant. -/
  constEvalResolve : Nat → EvalResult
  /-- `Instance::mono(tcx, def_id).ty(tcx, reveal_all)` for a static. -/
  staticTy : Nat → Ty
  /-- `tcx.instance_mir` composed with the instance's substitution: the
  flattened, already monomorphized body of a function instance. -/
  instanceBody : Instance → List Event
  /-- `to_fingerprint`: the content-derived stable hash of an item. -/
  fingerprint : MonoItem → Nat

/-- `InstanceDef::def_id_if_not_guaranteed_local_codegen`: `Item` and
`DropGlue(_, Some(_))` expose their `DefId`; every other variant is always
locally synthesized. -/
def defIdIfNotGuaranteedLocalCodegen (inst : Instance) : Option Nat :=
  match inst.defKind with
  | InstanceDefKind.item => some inst.defId
  | InstanceDefKind.dropGlueSome => some inst.defId
  | _ => none

/-- `should_codegen_locally`: foreign items and items without MIR are not
codegen'd; instances whose body is always synthesized are always included. -/
def should_codegen_locally (ctx : Ctx) (inst : Instance) : Bool :=
  match defIdIfNotGuaranteedLocalCodegen inst with
  | some defId =>
      if ctx.isForeignItem defId then false
      else ctx.isMirAvailable defId
  | none => true

/-- The `type_has_metadata` closure of `find_vtable_types_for_unsizing`:
a sized type has no metadata; otherwise the struct tail (the type itself in
the modelled universe, which has no ADT layers to peel) must be `Str`,
`Slice` or `Dynamic` — here only `Dynamic` exists — else `unreachable!`. -/
def type_has_metadata (ty : Ty) : Except CollectError Bool :=
  if ty.isSized then Except.ok false
  else
    match ty with
    | Ty.dynamic _ => Except.ok true
    | _ => Except.error CollectError.unexpectedUnsizedTail

/-- `tcx.struct_lockstep_tails_erasing_lifetimes`: peels matching ADT layers
in lockstep; in the modelled universe (no ADTs) it is the identity pair. -/
def struct_lockstep_tails (a b : Ty) : Ty × Ty := (a, b)

/-- The `ptr_vtable` closure of `find_vtable_types_for_unsizing`. -/
def ptr_vtable (innerSource innerTarget : Ty) : Except CollectError (Ty × Ty) :=
  match type_has_metadata innerSource with
  | Except.error e => Except.error e
  | Except.ok true => Except.ok (innerSource, innerTarget)
  | Except.ok false => Except.ok (struct_lockstep_tails innerSource innerTarget)

/-- `find_vtable_types_for_unsizing`: for pointer-to-pointer unsizing
coercions, unwrap one layer of indirection and delegate to `ptr_vtable`
(the `Ref`/`RawPtr`/`Box` arms of the source are all of this shape); the
custom ADT arm is outside the modelled universe, and any other shape is the
source's `unreachable!`. -/
def find_vtable_types_for_unsizing (sourceTy targetTy : Ty) :
    Except CollectError (Ty × Ty) :=
  match sourceTy, targetTy with
  | Ty.ref a, Ty.ref b => ptr_vtable a b
  | _, _ => Except.error CollectError.invalidCoercion

/-- `extract_trait_casting`: the (from, to) pair of an unsized cast. -/
def extract_trait_casting (srcTy dstTy : Ty) : Except CollectError (Ty × Ty) :=
  find_vtable_types_for_unsizing srcTy dstTy

/-- `collect_alloc_items`: scan what an `AllocId` points to and collect the
static / function items it references, recursing through anonymous memory
allocations and vtable allocations.  Structurally recursive on the fuel. -/
def collect_alloc_items (ctx : Ctx) : Nat → Nat → Except CollectError (List MonoItem)
  | 0, _ => Except.error CollectError.outOfFuel
  | afuel + 1, allocId =>
    match ctx.globalAlloc allocId with
    | GlobalAllocKind.staticAlloc defId =>
        if ctx.isThreadLocalStatic defId then
          Except.error CollectError.threadLocalAssert
        else if should_codegen_locally ctx (Instance.mono defId) then
          Except.ok [MonoItem.staticVar defId]
        else Except.ok []
    | GlobalAllocKind.functionAlloc inst =>
        if should_codegen_locally ctx inst then
          Except.ok [MonoItem.fn (ctx.polymorphize inst)]
        else Except.ok []
    | GlobalAllocKind.memory provenance =>
        provenance.foldr
          (fun id acc =>
            match collect_alloc_items ctx afuel id, acc with
            | Except.error e, _ => Except.error e
            | Except.ok _, Except.error e => Except.error e
            | Except.ok items, Except.ok rest => Except.ok (items ++ rest))
          (Except.ok [])
    | GlobalAllocKind.vtableAlloc ty traitId =>
        collect_alloc_items ctx afuel (ctx.vtableAllocation ty traitId)

/-- Walk a list of `AllocId`s with `collect_alloc_items`, concatenating the
results; the first panic aborts.  (`for &id in provenance.values() { .. }`.) -/
def walk_alloc_ids (ctx : Ctx) (afuel : Nat) (ids : List Nat) :
    Except CollectError (List MonoItem) :=
  ids.foldr
    (fun id acc =>
      match collect_alloc_items ctx afuel id, acc with
      | Except.error e, _ => Except.error e
      | Except.ok _, Except.error e => Except.error e
      | Except.ok items, Except.ok rest => Except.ok (items ++ rest))
    (Except.ok [])

/-- `MonoItemsFnCollector::collect_instance`: collect an instance depending
on how it is used.  `Virtual` and `Intrinsic` have no body (and must only
appear as direct calls); `DropGlue(_, None)` is needed only when not called
directly; everything else is collected, subject to the eligibility filter. -/
def collect_instance (ctx : Ctx) (inst : Instance) (isDirectCall : Bool) :
    Except CollectError (List MonoItem) :=
  let shouldCollect? : Except CollectError Bool :=
    match inst.defKind with
    | InstanceDefKind.virtualDef =>
        if isDirectCall then Except.ok false
        else Except.error CollectError.assertionFailure
    | InstanceDefKind.intrinsic =>
        if isDirectCall then Except.ok false
        else Except.error CollectError.assertionFailure
    | InstanceDefKind.dropGlueNone => Except.ok (!isDirectCall)
    | InstanceDefKind.cloneShim => Except.ok true
    | InstanceDefKind.closureOnceShim => Except.ok true
    | InstanceDefKind.dropGlueSome => Except.ok true
    | InstanceDefKind.fnPtrShim => Except.ok true
    | InstanceDefKind.item => Except.ok true
    | InstanceDefKind.reifyShim => Except.ok true
    | InstanceDefKind.vtableShim => Except.ok true
  match shouldCollect? with
  | Except.error e => Except.error e
  | Except.ok shouldCollect =>
      if shouldCollect && should_codegen_locally ctx inst then
        Except.ok [MonoItem.fn (ctx.polymorphize inst)]
      else Except.ok []

/-- `MonoItemsFnCollector::collect_vtable_methods`: for a concrete type
coerced to a trait object, collect the locally eligible methods of the
vtable of the principal trait (metadata slots, vacant slots and supertrait
vtable pointers yield nothing), then the destructor glue of the concrete
type. -/
def collect_vtable_methods (ctx : Ctx) (concreteTy traitTy : Ty) :
    Except CollectError (List MonoItem) :=
  if concreteTy.isTrait then Except.error CollectError.assertionFailure
  else if !traitTy.isTrait then Except.error CollectError.assertionFailure
  else
    let methods : List MonoItem :=
      match traitTy with
      | Ty.dynamic (some principal) =>
          (ctx.vtableEntries principal concreteTy).filterMap
            (fun entry =>
              match entry with
              | VtblEntry.metadataAlign => none
              | VtblEntry.metadataDropInPlace => none
              | VtblEntry.metadataSize => none
              | VtblEntry.vacant => none
              | VtblEntry.traitVPtr => none
              | VtblEntry.method inst =>
                  if should_codegen_locally ctx inst then
                    some (MonoItem.fn (ctx.polymorphize inst))
                  else none)
      | _ => []
    match collect_instance ctx (ctx.resolveDropInPlace concreteTy) false with
    | Except.error e => Except.error e
    | Except.ok dropItems => Except.ok (methods ++ dropItems)

/-- `MonoItemsFnCollector::collect_const_value`. -/
def collect_const_value (ctx : Ctx) (afuel : Nat) (value : ConstValue) :
    Except CollectError (List MonoItem) :=
  match value with
  | ConstValue.scalarPtr provenance => collect_alloc_items ctx afuel provenance
  | ConstValue.slice provenance => walk_alloc_ids ctx afuel provenance
  | ConstValue.byRef provenance => walk_alloc_ids ctx afuel provenance
  | ConstValue.other => Except.ok []

/-- `visit_rvalue`: unsized casts expand vtables, reify / closure casts
collect the address-taken shim, thread-local references collect the static. -/
def visit_rvalue (ctx : Ctx) (rv : RvalueE) : Except CollectError (List MonoItem) :=
  match rv with
  | RvalueE.castUnsize sourceTy targetTy =>
      match extract_trait_casting sourceTy targetTy with
      | Except.error e => Except.error e
      | Except.ok (srcInner, dstInner) =>
          if !srcInner.isTrait && dstInner.isTrait then
            collect_vtable_methods ctx srcInner dstInner
          else Except.ok []
  | RvalueE.castReifyFnPtr fnTy =>
      match fnTy with
      | FnTyE.fnDef defId substs =>
          match ctx.resolveForFnPtr defId substs with
          | none => Except.error CollectError.assertionFailure
          | some inst => collect_instance ctx inst false
      | FnTyE.notFnDef => Except.error CollectError.assertionFailure
  | RvalueE.castClosureFnPtr sourceTy =>
      match sourceTy with
      | ClosureSrcE.closureTy defId substs =>
          match ctx.resolveClosure defId substs with
          | none => Except.error CollectError.assertionFailure
          | some inst => collect_instance ctx inst false
      | ClosureSrcE.notClosure => Except.error CollectError.assertionFailure
  | RvalueE.threadLocalRef defId =>
      if ctx.isThreadLocalStatic defId then
        if should_codegen_locally ctx (Instance.mono defId) then
          Except.ok [MonoItem.staticVar defId]
        else Except.ok []
      else Except.error CollectError.threadLocalAssert
  | RvalueE.otherRvalue => Except.ok []

/-- `visit_constant`: evaluate the literal; a `TooGeneric` failure is a
fatal bug, an already-reported failure is silently skipped, variants with
nothing to evaluate yield nothing, and `Placeholder`/`Bound` cannot occur. -/
def visit_constant (ctx : Ctx) (afuel : Nat) (lit : Literal) :
    Except CollectError (List MonoItem) :=
  match lit with
  | Literal.val constVal => collect_const_value ctx afuel constVal
  | Literal.tyConst k =>
      match k with
      | ConstKindE.value v => collect_const_value ctx afuel v
      | ConstKindE.unevaluated u =>
          match ctx.constEvalResolve u with
          | EvalResult.ok constVal => collect_const_value ctx afuel constVal
          | EvalResult.tooGeneric => Except.error CollectError.ungroundedConstant
          | EvalResult.reported => Except.ok []
      | ConstKindE.param => Except.ok []
      | ConstKindE.infer => Except.ok []
      | ConstKindE.errorK => Except.ok []
      | ConstKindE.placeholder => Except.error CollectError.unexpectedConstKind
      | ConstKindE.bound => Except.error CollectError.unexpectedConstKind

/-- `visit_terminator`: direct calls resolve to exactly one instance or
abort; drops resolve drop glue as a direct call; generator-level edges
cannot occur at this MIR level; everything else generates no edges. -/
def visit_terminator (ctx : Ctx) (t : TerminatorE) :
    Except CollectError (List MonoItem) :=
  match t with
  | TerminatorE.call funcTy =>
      match funcTy with
      | CallTyE.fnDef defId substs =>
          match ctx.resolveFn defId substs with
          | some (some inst) => collect_instance ctx inst true
          | some none => Except.error CollectError.ambiguousOrMissingCallResolution
          | none => Except.error CollectError.ambiguousOrMissingCallResolution
      | CallTyE.fnPtr => Except.ok []
      | CallTyE.otherTy => Except.error CollectError.unexpectedCallType
  | TerminatorE.drop placeTy =>
      collect_instance ctx (ctx.resolveDropInPlace placeTy) true
  | TerminatorE.dropAndReplace placeTy =>
      collect_instance ctx (ctx.resolveDropInPlace placeTy) true
  | TerminatorE.inlineAsm => Except.ok []
  | TerminatorE.abort => Except.ok []
  | TerminatorE.assertT => Except.ok []
  | TerminatorE.goto => Except.ok []
  | TerminatorE.switchInt => Except.ok []
  | TerminatorE.resume => Except.ok []
  | TerminatorE.ret => Except.ok []
  | TerminatorE.unreachableT => Except.ok []
  | TerminatorE.generatorDrop => Except.error CollectError.unexpectedTerminator
  | TerminatorE.yieldT => Except.error CollectError.unexpectedTerminator
  | TerminatorE.falseEdge => Except.error CollectError.unexpectedTerminator
  | TerminatorE.falseUnwind => Except.error CollectError.unexpectedTerminator

/-- Dispatch one visitor callback. -/
def visit_event (ctx : Ctx) (afuel : Nat) (e : Event) :
    Except CollectError (List MonoItem) :=
  match e with
  | Event.rvalue rv => visit_rvalue ctx rv
  | Event.constant lit => visit_constant ctx afuel lit
  | Event.terminator t => visit_terminator ctx t

/-- `visit_body`: visit every instruction of a body in order, accumulating
the collected items (the source accumulates them in the per-function
`FxHashSet`; the list below is its contents with multiplicity and in visit
order, which the engine dedups). -/
def visit_body (ctx : Ctx) (afuel : Nat) : List Event → Except CollectError (List MonoItem)
  | [] => Except.ok []
  | e :: rest =>
      match visit_event ctx afuel e with
      | Except.error err => Except.error err
      | Except.ok items =>
          match visit_body ctx afuel rest with
          | Except.error err => Except.error err
          | Except.ok more => Except.ok (items ++ more)

/-- `MonoItemsCollector::visit_fn`: scan the instance's body with a fresh
`MonoItemsFnCollector` and drain the resulting set.  `enum` is the hash-set
iteration order (see the file comment). -/
def visit_fn (ctx : Ctx) (enum : Finset MonoItem → List MonoItem) (afuel : Nat)
    (inst : Instance) : Except CollectError (List MonoItem) :=
  match visit_body ctx afuel (ctx.instanceBody inst) with
  | Except.error e => Except.error e
  | Except.ok collectedItems => Except.ok (enum collectedItems.toFinset)

/-- `MonoItemsCollector::visit_static`: always enqueue the drop glue of the
static's type (not subject to the eligibility filter), then unwrap the
evaluated initializer — a panic if evaluation failed — and walk the
provenance of its bytes. -/
def visit_static (ctx : Ctx) (afuel : Nat) (defId : Nat) :
    Except CollectError (List MonoItem) :=
  let static_ty := ctx.staticTy defId
  let dropInstance := ctx.resolveDropInPlace static_ty
  let dropItem := MonoItem.fn (ctx.polymorphize dropInstance)
  match ctx.evalStaticInitializer defId with
  | none => Except.error CollectError.evalStaticFailed
  | some provenance =>
      match walk_alloc_ids ctx afuel provenance with
      | Except.error e => Except.error e
      | Except.ok items => Except.ok (dropItem :: items)

/-- The list of new items one expansion of an item pushes (before the
engine-side dedup): the scan of a function's body, the drop glue plus
initializer referents of a static, nothing for assembly (`visit_asm` only
re-inserts the already collected item). -/
def item_neighbors (ctx : Ctx) (afuel : Nat) : MonoItem → Except CollectError (List MonoItem)
  | MonoItem.fn inst => visit_body ctx afuel (ctx.instanceBody inst)
  | MonoItem.staticVar defId => visit_static ctx afuel defId
  | MonoItem.globalAsm _ => Except.ok []

/-- `MonoItemsCollector::reachable_items`: pop pending items; an item not
yet in the closed set is inserted **before** its neighbors are computed,
then expanded by kind.  `pick` selects the popped position (the source's
`Vec::pop` is `pickLast`); the function-scan neighbors are filtered against
the closed set exactly as in the source (the static neighbors are enqueued
unfiltered).  Structurally recursive on the fuel. -/
def reachable_items (ctx : Ctx) (enum : Finset MonoItem → List MonoItem)
    (pick : List MonoItem → Nat) (afuel : Nat) :
    Nat → Finset MonoItem → List MonoItem → Except CollectError (Finset MonoItem)
  | _, collected, [] => Except.ok collected
  | 0, _, _ :: _ => Except.error CollectError.outOfFuel
  | fuel + 1, collected, x :: xs =>
      let q := x :: xs
      let i := pick q % q.length
      let toVisit := q.getD i x
      let rest := q.eraseIdx i
      if toVisit ∈ collected then
        reachable_items ctx enum pick afuel fuel collected rest
      else
        let collected' := insert toVisit collected
        match toVisit with
        | MonoItem.fn inst =>
            match visit_fn ctx enum afuel inst with
            | Except.error e => Except.error e
            | Except.ok items =>
                reachable_items ctx enum pick afuel fuel collected'
                  (rest ++ items.filter (fun it => decide (it ∉ collected')))
        | MonoItem.staticVar defId =>
            match visit_static ctx afuel defId with
            | Except.error e => Except.error e
            | Except.ok items =>
                reachable_items ctx enum pick afuel fuel collected' (rest ++ items)
        | MonoItem.globalAsm _ =>
            reachable_items ctx enum pick afuel fuel collected' rest

/-- The source's pop position: `Vec::pop` takes the last element. -/
def pickLast (q : List MonoItem) : Nat := q.length - 1

/-- `MonoItemsCollector::collect` folded over the starting points: push each
root in turn and run the worklist to exhaustion, keeping the closed set. -/
def collect_roots (ctx : Ctx) (enum : Finset MonoItem → List MonoItem)
    (pick : List MonoItem → Nat) (afuel fuel : Nat) :
    List MonoItem → Finset MonoItem → Except CollectError (Finset MonoItem)
  | [], collected => Except.ok collected
  | root :: rest, collected =>
      match reachable_items ctx enum pick afuel fuel collected [root] with
      | Except.error e => Except.error e
      | Except.ok collected' => collect_roots ctx enum pick afuel fuel rest collected'

/-- The order the final sort uses: compare the stable fingerprints. -/
def fingerprintLe (ctx : Ctx) (a b : MonoItem) : Prop :=
  ctx.fingerprint a ≤ ctx.fingerprint b

instance (ctx : Ctx) : DecidableRel (fingerprintLe ctx) :=
  fun a b => Nat.decLe (ctx.fingerprint a) (ctx.fingerprint b)

/-- `collect_reachable_items`: run the collector from every starting point
with a shared closed set, then sort the result by the stable fingerprint so
code generation follows a deterministic order.  (`check_result` is a
diagnostic-only logging pass and produces no items.)  The source's
`sort_by_cached_key` is a sort by `to_fingerprint`; ties between distinct
items with equal fingerprints are broken by the unspecified hash iteration
order there, and by insertion order here. -/
def collect_reachable_items (ctx : Ctx) (enum : Finset MonoItem → List MonoItem)
    (pick : List MonoItem → Nat) (afuel fuel : Nat)
    (startingPoints : List MonoItem) : Except CollectError (List MonoItem) :=
  match collect_roots ctx enum pick afuel fuel startingPoints ∅ with
  | Except.error e => Except.error e
  | Except.ok collected =>
      Except.ok (List.insertionSort (fingerprintLe ctx) (enum collected))

/-- A valid drain order for a hash set: it enumerates exactly the elements,
each once. -/
def ValidEnum (enum : Finset MonoItem → List MonoItem) : Prop :=
  ∀ s : Finset MonoItem, (enum s).Nodup ∧ ∀ x : MonoItem, x ∈ enum s ↔ x ∈ s

/-- Reachability by the collector's own edge-generation rules: the least
predicate containing `base` and closed under `item_neighbors`. -/
inductive Reaches (ctx : Ctx) (afuel : Nat) (base : Set MonoItem) : MonoItem → Prop where
  | root {x : MonoItem} : x ∈ base → Reaches ctx afuel base x
  | step {x y : MonoItem} {ns : List MonoItem} :
      Reaches ctx afuel base x → item_neighbors ctx afuel x = Except.ok ns →
      y ∈ ns → Reaches ctx afuel base y

/-- A set closed under the collector's edge-generation rules. -/
def ClosedUnder (ctx : Ctx) (afuel : Nat) (S : Set MonoItem) : Prop :=
  ∀ x ∈ S, ∀ ns : List MonoItem, item_neighbors ctx afuel x = Except.ok ns →
    ∀ y ∈ ns, y ∈ S

/-- One plus the number of neighbors an item generates (used to bound the
number of worklist steps). -/
def itemWeight (ctx : Ctx) (afuel : Nat) (x : MonoItem) : Nat :=
  match item_neighbors ctx afuel x with
  | Except.ok ns => 1 + ns.length
  | Except.error _ => 1

/-- Decidable form of "the neighbors of `x`, if they can be computed, stay
inside `U`". -/
def neighbors_within (ctx : Ctx) (afuel : Nat) (U : Finset MonoItem) (x : MonoItem) : Bool :=
  match item_neighbors ctx afuel x with
  | Except.ok ns => ns.all (fun y => decide (y ∈ U))
  | Except.error _ => true

def kindCode : InstanceDefKind → Nat
  | InstanceDefKind.item => 0
  | InstanceDefKind.virtualDef => 1
  | InstanceDefKind.intrinsic => 2
  | InstanceDefKind.dropGlueNone => 3
  | InstanceDefKind.dropGlueSome => 4
  | InstanceDefKind.cloneShim => 5
  | InstanceDefKind.closureOnceShim => 6
  | InstanceDefKind.fnPtrShim => 7
  | InstanceDefKind.reifyShim => 8
  | InstanceDefKind.vtableShim => 9

def itemKey : MonoItem → Nat
  | MonoItem.fn inst => 3 * Nat.pair (kindCode inst.defKind) (Nat.pair inst.defId inst.substs)
  | MonoItem.staticVar d => 3 * d + 1
  | MonoItem.globalAsm a => 3 * a + 2

def itemLe (a b : MonoItem) : Prop := itemKey a ≤ itemKey b

instance : DecidableRel itemLe := fun a b => Nat.decLe (itemKey a) (itemKey b)

instance : IsTrans MonoItem itemLe := ⟨fun _ _ _ h1 h2 => Nat.le_trans h1 h2⟩

instance : IsTotal MonoItem itemLe := ⟨fun a b => Nat.le_total (itemKey a) (itemKey b)⟩

instance : IsAntisymm MonoItem itemLe :=
  ⟨fun a b h1 h2 => by
    have hk : itemKey a = itemKey b := Nat.le_antisymm h1 h2
    have hkind : ∀ k1 k2 : InstanceDefKind, kindCode k1 = kindCode k2 → k1 = k2 := by
      intro k1 k2 hkc
      cases k1 <;> cases k2 <;> simp [kindCode] at hkc ⊢
    cases a with
    | fn i =>
      cases b with
      | fn j =>
        simp only [itemKey] at hk
        have h2p : Nat.pair (kindCode i.defKind) (Nat.pair i.defId i.substs)
            = Nat.pair (kindCode j.defKind) (Nat.pair j.defId j.substs) := by omega
        rw [Nat.pair_eq_pair] at h2p
        obtain ⟨hkc, hp⟩ := h2p
        rw [Nat.pair_eq_pair] at hp
        obtain ⟨hd, hs⟩ := hp
        have hkk := hkind _ _ hkc
        cases i
        cases j
        simp_all
      | staticVar d2 => simp only [itemKey] at hk; omega
      | globalAsm a2 => simp only [itemKey] at hk; omega
    | staticVar d =>
      cases b with
      | fn j => simp only [itemKey] at hk; omega
      | staticVar d2 =>
        simp only [itemKey] at hk
        have hd : d = d2 := by omega
        rw [hd]
      | globalAsm a2 => simp only [itemKey] at hk; omega
    | globalAsm a0 =>
      cases b with
      | fn j => simp only [itemKey] at hk; omega
      | staticVar d2 => simp only [itemKey] at hk; omega
      | globalAsm a2 =>
        simp only [itemKey] at hk
        have ha : a0 = a2 := by omega
        rw [ha]⟩

def enumSort (s : Finset MonoItem) : List MonoItem :=
  Quot.liftOn s.val (fun l => List.insertionSort itemLe l)
    (fun _ _ h =>
      List.eq_of_perm_of_sorted
        ((List.perm_insertionSort itemLe _).trans (h.trans (List.perm_insertionSort itemLe _).symm))
        (List.sorted_insertionSort itemLe _) (List.sorted_insertionSort itemLe _))

def enumSortRev (s : Finset MonoItem) : List MonoItem := (enumSort s).reverse

def pickFirst (_ : List MonoItem) : Nat := 0

def instF : Instance := { defKind := InstanceDefKind.item, defId := 1, substs := 0 }
def instG : Instance := { defKind := InstanceDefKind.item, defId := 2, substs := 0 }
def instH : Instance := { defKind := InstanceDefKind.item, defId := 3, substs := 0 }
def instSpeak : Instance := { defKind := InstanceDefKind.item, defId := 10, substs := 0 }
def instFeed : Instance := { defKind := InstanceDefKind.item, defId := 11, substs := 0 }
def instDropS : Instance := { defKind := InstanceDefKind.dropGlueNone, defId := 9, substs := 0 }

def ctxDemo : Ctx where
  isForeignItem := fun n => n = 3
  isMirAvailable := fun _ => true
  isThreadLocalStatic := fun _ => false
  polymorphize := fun inst => inst
  resolveFn := fun d _ => if d = 1 then some (some instF) else if d = 2 then some (some instG) else none
  resolveForFnPtr := fun d _ => if d = 3 then some instH else none
  resolveClosure := fun _ _ => none
  resolveDropInPlace := fun _ => instDropS
  vtableEntries := fun p _ =>
    if p = 20 then
      [VtblEntry.metadataDropInPlace, VtblEntry.metadataSize, VtblEntry.metadataAlign,
       VtblEntry.method instSpeak, VtblEntry.method instFeed]
    else []
  globalAlloc := fun a => if a = 7 then GlobalAllocKind.staticAlloc 5 else GlobalAllocKind.memory []
  vtableAllocation := fun _ _ => 0
  evalStaticInitializer := fun d => if d = 5 then some [] else none
  constEvalResolve := fun u =>
    if u = 0 then EvalResult.reported
    else if u = 1 then EvalResult.tooGeneric
    else EvalResult.ok (ConstValue.scalarPtr 7)
  staticTy := fun _ => Ty.concrete 9
  instanceBody := fun inst =>
    if inst = instF then
      [Event.terminator (TerminatorE.call (CallTyE.fnDef 2 0)),
       Event.constant (Literal.val (ConstValue.scalarPtr 7))]
    else if inst = instG then
      [Event.terminator (TerminatorE.call (CallTyE.fnDef 1 0))]
    else []
  fingerprint := itemKey

/-- Drop glue carrying a nested drop instance (`DropGlue(_, Some(_))`), as
`resolve_drop_in_place` returns for a type with drop code; its exposed
`DefId` 13 is local and has MIR in `ctxDemo`. -/
def instDropT : Instance :=
  { defKind := InstanceDefKind.dropGlueSome, defId := 13, substs := 0 }

/-- The demo context with the drop-glue resolver returning glue for a type
with drop code (`DropGlue(_, Some(_))`). -/
def ctxDrop : Ctx := { ctxDemo with resolveDropInPlace := fun _ => instDropT }

theorem itemKey_injective : Function.Injective itemKey := by
  intro a b h
  exact @IsAntisymm.antisymm MonoItem itemLe _ a b (Nat.le_of_eq h) (Nat.le_of_eq h.symm)

theorem getD_mem_of_lt {l : List MonoItem} {i : Nat} {d : MonoItem}
    (h : i < l.length) : l.getD i d ∈ l := by
  rw [List.getD_eq_getElem l d h]
  exact List.getElem_mem h

theorem mem_of_mem_eraseIdx {l : List MonoItem} {y : MonoItem} :
    ∀ {i : Nat}, y ∈ l.eraseIdx i → y ∈ l := by
  induction l with
  | nil => intro i h; simp [List.eraseIdx] at h
  | cons a t ih =>
    intro i h
    cases i with
    | zero => simp only [List.eraseIdx] at h; exact List.mem_cons_of_mem a h
    | succ j =>
      simp only [List.eraseIdx] at h
      rcases List.mem_cons.mp h with h1 | h2
      · exact h1 ▸ List.mem_cons_self a t
      · exact List.mem_cons_of_mem a (ih h2)

theorem mem_getD_or_mem_eraseIdx {l : List MonoItem} {y d : MonoItem} :
    ∀ {i : Nat}, i < l.length → y ∈ l → y = l.getD i d ∨ y ∈ l.eraseIdx i := by
  induction l with
  | nil => intro i h; simp at h
  | cons a t ih =>
    intro i hi hy
    cases i with
    | zero =>
      rcases List.mem_cons.mp hy with h1 | h2
      · exact Or.inl (by simpa using h1)
      · exact Or.inr (by simpa [List.eraseIdx] using h2)
    | succ j =>
      rcases List.mem_cons.mp hy with h1 | h2
      · exact Or.inr (by simp [List.eraseIdx, h1])
      · rcases ih (by simpa using hi) h2 with h3 | h4
        · exact Or.inl (by simpa using h3)
        · exact Or.inr (by simp [List.eraseIdx, h4])

theorem reaches_mono {ctx : Ctx} {afuel : Nat} {A B : Set MonoItem} {x : MonoItem}
    (hAB : A ⊆ B) (h : Reaches ctx afuel A x) : Reaches ctx afuel B x := by
  induction h with
  | root hx => exact Reaches.root (hAB hx)
  | step _ hns hy ih => exact Reaches.step ih hns hy

theorem reaches_trans {ctx : Ctx} {afuel : Nat} {A B : Set MonoItem} {x : MonoItem}
    (hB : ∀ b ∈ B, Reaches ctx afuel A b) (h : Reaches ctx afuel B x) :
    Reaches ctx afuel A x := by
  induction h with
  | root hx => exact hB _ hx
  | step _ hns hy ih => exact Reaches.step ih hns hy

theorem reaches_subset_of_closed {ctx : Ctx} {afuel : Nat} {base S : Set MonoItem}
    (hbase : base ⊆ S) (hS : ClosedUnder ctx afuel S) :
    ∀ {x : MonoItem}, Reaches ctx afuel base x → x ∈ S := by
  intro x h
  induction h with
  | root hx => exact hbase hx
  | step _ hns hy ih => exact hS _ ih _ hns _ hy

theorem visit_fn_ok_iff {ctx : Ctx} {enum : Finset MonoItem → List MonoItem}
    {afuel : Nat} {inst : Instance} {items : List MonoItem}
    (h : visit_fn ctx enum afuel inst = Except.ok items) :
    ∃ ns, visit_body ctx afuel (ctx.instanceBody inst) = Except.ok ns ∧
      items = enum ns.toFinset := by
  unfold visit_fn at h
  cases hb : visit_body ctx afuel (ctx.instanceBody inst) with
  | error e => rw [hb] at h; cases h
  | ok ns => rw [hb] at h; cases h; exact ⟨ns, rfl, rfl⟩

theorem visit_fn_error_inv {ctx : Ctx} {enum : Finset MonoItem → List MonoItem}
    {afuel : Nat} {inst : Instance} {e : CollectError}
    (h : visit_fn ctx enum afuel inst = Except.error e) :
    visit_body ctx afuel (ctx.instanceBody inst) = Except.error e := by
  unfold visit_fn at h
  cases hb : visit_body ctx afuel (ctx.instanceBody inst) with
  | error e2 =>
    rw [hb] at h
    injection h with h2
    rw [h2]
  | ok ns =>
    rw [hb] at h
    exact Except.noConfusion h

theorem reachable_items_subset_reaches (ctx : Ctx)
    (enum : Finset MonoItem → List MonoItem) (pick : List MonoItem → Nat)
    (afuel : Nat) (hEnum : ValidEnum enum) :
    ∀ (fuel : Nat) (collected : Finset MonoItem) (queue : List MonoItem)
      (out : Finset MonoItem),
      reachable_items ctx enum pick afuel fuel collected queue = Except.ok out →
      ∀ x ∈ out, Reaches ctx afuel {y | y ∈ collected ∨ y ∈ queue} x := by
  intro fuel
  induction fuel with
  | zero =>
    intro collected queue out hrun x hx
    cases queue with
    | nil =>
      simp only [reachable_items] at hrun
      cases hrun
      exact Reaches.root (Or.inl hx)
    | cons a as =>
      simp only [reachable_items] at hrun
      exact Except.noConfusion hrun
  | succ fuel ih =>
    intro collected queue out hrun x hx
    cases queue with
    | nil =>
      simp only [reachable_items] at hrun
      cases hrun
      exact Reaches.root (Or.inl hx)
    | cons a as =>
      simp only [reachable_items] at hrun
      have hilt : pick (a :: as) % (a :: as).length < (a :: as).length :=
        Nat.mod_lt _ (by simp)
      generalize htv : (a :: as).getD (pick (a :: as) % (a :: as).length) a = toVisit at hrun
      generalize hrest : (a :: as).eraseIdx (pick (a :: as) % (a :: as).length) = rest at hrun
      have htvq : toVisit ∈ a :: as := htv ▸ getD_mem_of_lt hilt
      have hrestq : ∀ y ∈ rest, y ∈ a :: as := fun y hy => mem_of_mem_eraseIdx (hrest ▸ hy)
      by_cases hmem : toVisit ∈ collected
      · rw [if_pos hmem] at hrun
        refine reaches_mono ?_ (ih collected rest out hrun x hx)
        intro y hy
        rcases hy with hy | hy
        · exact Or.inl hy
        · exact Or.inr (hrestq y hy)
      · rw [if_neg hmem] at hrun
        have hroot : Reaches ctx afuel {y | y ∈ collected ∨ y ∈ a :: as} toVisit :=
          Reaches.root (Or.inr htvq)
        cases toVisit with
        | fn inst =>
          dsimp only at hrun
          cases hvf : visit_fn ctx enum afuel inst with
          | error e => rw [hvf] at hrun; exact Except.noConfusion hrun
          | ok items =>
            rw [hvf] at hrun
            obtain ⟨ns, hns, hitems⟩ := visit_fn_ok_iff hvf
            refine reaches_trans ?_
              (ih _ _ out hrun x hx)
            intro b hb
            rcases hb with hb | hb
            · rcases Finset.mem_insert.mp hb with hb | hb
              · exact hb ▸ hroot
              · exact Reaches.root (Or.inl hb)
            · rcases List.mem_append.mp hb with hb | hb
              · exact Reaches.root (Or.inr (hrestq b hb))
              · have hbe : b ∈ items := List.mem_of_mem_filter hb
                have hbns : b ∈ ns := by
                  rw [hitems] at hbe
                  exact List.mem_toFinset.mp ((hEnum ns.toFinset).2 b |>.mp hbe)
                exact Reaches.step hroot (by simpa [item_neighbors] using hns) hbns
        | staticVar defId =>
          dsimp only at hrun
          cases hvs : visit_static ctx afuel defId with
          | error e => rw [hvs] at hrun; exact Except.noConfusion hrun
          | ok items =>
            rw [hvs] at hrun
            refine reaches_trans ?_ (ih _ _ out hrun x hx)
            intro b hb
            rcases hb with hb | hb
            · rcases Finset.mem_insert.mp hb with hb | hb
              · exact hb ▸ hroot
              · exact Reaches.root (Or.inl hb)
            · rcases List.mem_append.mp hb with hb | hb
              · exact Reaches.root (Or.inr (hrestq b hb))
              · exact Reaches.step hroot (by simpa [item_neighbors] using hvs) hb
        | globalAsm asmId =>
          dsimp only at hrun
          refine reaches_trans ?_ (ih _ _ out hrun x hx)
          intro b hb
          rcases hb with hb | hb
          · rcases Finset.mem_insert.mp hb with hb | hb
            · exact hb ▸ hroot
            · exact Reaches.root (Or.inl hb)
          · exact Reaches.root (Or.inr (hrestq b hb))

theorem reachable_items_superset (ctx : Ctx)
    (enum : Finset MonoItem → List MonoItem) (pick : List MonoItem → Nat)
    (afuel : Nat) :
    ∀ (fuel : Nat) (collected : Finset MonoItem) (queue : List MonoItem)
      (out : Finset MonoItem),
      reachable_items ctx enum pick afuel fuel collected queue = Except.ok out →
      (∀ x ∈ collected, x ∈ out) ∧ (∀ y ∈ queue, y ∈ out) := by
  intro fuel
  induction fuel with
  | zero =>
    intro collected queue out hrun
    cases queue with
    | nil =>
      simp only [reachable_items] at hrun
      cases hrun
      exact ⟨fun x hx => hx, fun y hy => absurd hy (List.not_mem_nil y)⟩
    | cons a as =>
      simp only [reachable_items] at hrun
      exact Except.noConfusion hrun
  | succ fuel ih =>
    intro collected queue out hrun
    cases queue with
    | nil =>
      simp only [reachable_items] at hrun
      cases hrun
      exact ⟨fun x hx => hx, fun y hy => absurd hy (List.not_mem_nil y)⟩
    | cons a as =>
      simp only [reachable_items] at hrun
      have hilt : pick (a :: as) % (a :: as).length < (a :: as).length :=
        Nat.mod_lt _ (by simp)
      generalize htv : (a :: as).getD (pick (a :: as) % (a :: as).length) a = toVisit at hrun
      generalize hrest : (a :: as).eraseIdx (pick (a :: as) % (a :: as).length) = rest at hrun
      have hsplit : ∀ y ∈ a :: as, y = toVisit ∨ y ∈ rest := fun y hy => by
        rcases mem_getD_or_mem_eraseIdx (d := a) hilt hy with h1 | h2
        · exact Or.inl (h1.trans htv)
        · exact Or.inr (hrest ▸ h2)
      by_cases hmem : toVisit ∈ collected
      · rw [if_pos hmem] at hrun
        obtain ⟨hc, hq⟩ := ih collected rest out hrun
        refine ⟨hc, fun y hy => ?_⟩
        rcases hsplit y hy with h1 | h2
        · exact h1 ▸ hc _ hmem
        · exact hq y h2
      · rw [if_neg hmem] at hrun
        cases toVisit with
        | fn inst =>
          dsimp only at hrun
          cases hvf : visit_fn ctx enum afuel inst with
          | error e => rw [hvf] at hrun; exact Except.noConfusion hrun
          | ok items =>
            rw [hvf] at hrun
            obtain ⟨hc, hq⟩ := ih _ _ out hrun
            have htvout : MonoItem.fn inst ∈ out := hc _ (Finset.mem_insert_self _ _)
            refine ⟨fun x hx => hc _ (Finset.mem_insert_of_mem hx), fun y hy => ?_⟩
            rcases hsplit y hy with h1 | h2
            · exact h1 ▸ htvout
            · exact hq y (List.mem_append.mpr (Or.inl h2))
        | staticVar defId =>
          dsimp only at hrun
          cases hvs : visit_static ctx afuel defId with
          | error e => rw [hvs] at hrun; exact Except.noConfusion hrun
          | ok items =>
            rw [hvs] at hrun
            obtain ⟨hc, hq⟩ := ih _ _ out hrun
            have htvout : MonoItem.staticVar defId ∈ out := hc _ (Finset.mem_insert_self _ _)
            refine ⟨fun x hx => hc _ (Finset.mem_insert_of_mem hx), fun y hy => ?_⟩
            rcases hsplit y hy with h1 | h2
            · exact h1 ▸ htvout
            · exact hq y (List.mem_append.mpr (Or.inl h2))
        | globalAsm asmId =>
          dsimp only at hrun
          obtain ⟨hc, hq⟩ := ih _ _ out hrun
          have htvout : MonoItem.globalAsm asmId ∈ out := hc _ (Finset.mem_insert_self _ _)
          refine ⟨fun x hx => hc _ (Finset.mem_insert_of_mem hx), fun y hy => ?_⟩
          rcases hsplit y hy with h1 | h2
          · exact h1 ▸ htvout
          · exact hq y h2

theorem reachable_items_closed (ctx : Ctx)
    (enum : Finset MonoItem → List MonoItem) (pick : List MonoItem → Nat)
    (afuel : Nat) (hEnum : ValidEnum enum) :
    ∀ (fuel : Nat) (collected : Finset MonoItem) (queue : List MonoItem)
      (out : Finset MonoItem),
      reachable_items ctx enum pick afuel fuel collected queue = Except.ok out →
      (∀ x ∈ collected, ∀ ns : List MonoItem,
        item_neighbors ctx afuel x = Except.ok ns →
        ∀ y ∈ ns, y ∈ collected ∨ y ∈ queue) →
      ClosedUnder ctx afuel {z | z ∈ out} := by
  intro fuel
  induction fuel with
  | zero =>
    intro collected queue out hrun hinv
    cases queue with
    | nil =>
      simp only [reachable_items] at hrun
      cases hrun
      intro x hx ns hns y hy
      rcases hinv x hx ns hns y hy with h | h
      · exact h
      · exact absurd h (List.not_mem_nil y)
    | cons a as =>
      simp only [reachable_items] at hrun
      exact Except.noConfusion hrun
  | succ fuel ih =>
    intro collected queue out hrun hinv
    cases queue with
    | nil =>
      simp only [reachable_items] at hrun
      cases hrun
      intro x hx ns hns y hy
      rcases hinv x hx ns hns y hy with h | h
      · exact h
      · exact absurd h (List.not_mem_nil y)
    | cons a as =>
      simp only [reachable_items] at hrun
      have hilt : pick (a :: as) % (a :: as).length < (a :: as).length :=
        Nat.mod_lt _ (by simp)
      generalize htv : (a :: as).getD (pick (a :: as) % (a :: as).length) a = toVisit at hrun
      generalize hrest : (a :: as).eraseIdx (pick (a :: as) % (a :: as).length) = rest at hrun
      have hsplit : ∀ y ∈ a :: as, y = toVisit ∨ y ∈ rest := fun y hy => by
        rcases mem_getD_or_mem_eraseIdx (d := a) hilt hy with h1 | h2
        · exact Or.inl (h1.trans htv)
        · exact Or.inr (hrest ▸ h2)
      by_cases hmem : toVisit ∈ collected
      · rw [if_pos hmem] at hrun
        refine ih collected rest out hrun ?_
        intro x hx ns hns y hy
        rcases hinv x hx ns hns y hy with h | h
        · exact Or.inl h
        · rcases hsplit y h with h1 | h2
          · exact Or.inl (h1 ▸ hmem)
          · exact Or.inr h2
      · rw [if_neg hmem] at hrun
        cases toVisit with
        | fn inst =>
          dsimp only at hrun
          cases hvf : visit_fn ctx enum afuel inst with
          | error e => rw [hvf] at hrun; exact Except.noConfusion hrun
          | ok items =>
            rw [hvf] at hrun
            obtain ⟨ns0, hns0, hitems⟩ := visit_fn_ok_iff hvf
            refine ih _ _ out hrun ?_
            intro x hx ns hns y hy
            rcases Finset.mem_insert.mp hx with hx1 | hx2
            · subst hx1
              have hns' : ns = ns0 := by
                simp only [item_neighbors] at hns
                rw [hns0] at hns
                exact (Except.ok.injEq _ _).mp hns.symm
              subst hns'
              by_cases hyc : y ∈ insert (MonoItem.fn inst) collected
              · exact Or.inl hyc
              · refine Or.inr (List.mem_append.mpr (Or.inr ?_))
                rw [hitems]
                refine List.mem_filter.mpr ⟨?_, by simpa using hyc⟩
                exact ((hEnum ns.toFinset).2 y).mpr (List.mem_toFinset.mpr hy)
            · rcases hinv x hx2 ns hns y hy with h | h
              · exact Or.inl (Finset.mem_insert_of_mem h)
              · rcases hsplit y h with h1 | h2
                · exact Or.inl (h1 ▸ Finset.mem_insert_self _ _)
                · exact Or.inr (List.mem_append.mpr (Or.inl h2))
        | staticVar defId =>
          dsimp only at hrun
          cases hvs : visit_static ctx afuel defId with
          | error e => rw [hvs] at hrun; exact Except.noConfusion hrun
          | ok items =>
            rw [hvs] at hrun
            refine ih _ _ out hrun ?_
            intro x hx ns hns y hy
            rcases Finset.mem_insert.mp hx with hx1 | hx2
            · subst hx1
              have hns' : ns = items := by
                simp only [item_neighbors] at hns
                rw [hvs] at hns
                exact (Except.ok.injEq _ _).mp hns.symm
              subst hns'
              exact Or.inr (List.mem_append.mpr (Or.inr hy))
            · rcases hinv x hx2 ns hns y hy with h | h
              · exact Or.inl (Finset.mem_insert_of_mem h)
              · rcases hsplit y h with h1 | h2
                · exact Or.inl (h1 ▸ Finset.mem_insert_self _ _)
                · exact Or.inr (List.mem_append.mpr (Or.inl h2))
        | globalAsm asmId =>
          dsimp only at hrun
          refine ih _ _ out hrun ?_
          intro x hx ns hns y hy
          rcases Finset.mem_insert.mp hx with hx1 | hx2
          · subst hx1
            have hns' : ns = [] := by
              simp only [item_neighbors] at hns
              exact (Except.ok.injEq _ _).mp hns.symm
            subst hns'
            exact absurd hy (List.not_mem_nil y)
          · rcases hinv x hx2 ns hns y hy with h | h
            · exact Or.inl (Finset.mem_insert_of_mem h)
            · rcases hsplit y h with h1 | h2
              · exact Or.inl (h1 ▸ Finset.mem_insert_self _ _)
              · exact Or.inr h2

theorem reachable_items_visit_ok (ctx : Ctx)
    (enum : Finset MonoItem → List MonoItem) (pick : List MonoItem → Nat)
    (afuel : Nat) :
    ∀ (fuel : Nat) (collected : Finset MonoItem) (queue : List MonoItem)
      (out : Finset MonoItem),
      reachable_items ctx enum pick afuel fuel collected queue = Except.ok out →
      (∀ x ∈ collected, ∃ ns : List MonoItem, item_neighbors ctx afuel x = Except.ok ns) →
      ∀ x ∈ out, ∃ ns : List MonoItem, item_neighbors ctx afuel x = Except.ok ns := by
  intro fuel
  induction fuel with
  | zero =>
    intro collected queue out hrun hinv
    cases queue with
    | nil =>
      simp only [reachable_items] at hrun
      cases hrun
      exact hinv
    | cons a as =>
      simp only [reachable_items] at hrun
      exact Except.noConfusion hrun
  | succ fuel ih =>
    intro collected queue out hrun hinv
    cases queue with
    | nil =>
      simp only [reachable_items] at hrun
      cases hrun
      exact hinv
    | cons a as =>
      simp only [reachable_items] at hrun
      generalize htv : (a :: as).getD (pick (a :: as) % (a :: as).length) a = toVisit at hrun
      generalize hrest : (a :: as).eraseIdx (pick (a :: as) % (a :: as).length) = rest at hrun
      by_cases hmem : toVisit ∈ collected
      · rw [if_pos hmem] at hrun
        exact ih collected rest out hrun hinv
      · rw [if_neg hmem] at hrun
        cases toVisit with
        | fn inst =>
          dsimp only at hrun
          cases hvf : visit_fn ctx enum afuel inst with
          | error e => rw [hvf] at hrun; exact Except.noConfusion hrun
          | ok items =>
            rw [hvf] at hrun
            obtain ⟨ns0, hns0, _⟩ := visit_fn_ok_iff hvf
            refine ih _ _ out hrun ?_
            intro x hx
            rcases Finset.mem_insert.mp hx with hx1 | hx2
            · exact ⟨ns0, by simpa [item_neighbors, hx1] using hns0⟩
            · exact hinv x hx2
        | staticVar defId =>
          dsimp only at hrun
          cases hvs : visit_static ctx afuel defId with
          | error e => rw [hvs] at hrun; exact Except.noConfusion hrun
          | ok items =>
            rw [hvs] at hrun
            refine ih _ _ out hrun ?_
            intro x hx
            rcases Finset.mem_insert.mp hx with hx1 | hx2
            · exact ⟨items, by simpa [item_neighbors, hx1] using hvs⟩
            · exact hinv x hx2
        | globalAsm asmId =>
          dsimp only at hrun
          refine ih _ _ out hrun ?_
          intro x hx
          rcases Finset.mem_insert.mp hx with hx1 | hx2
          · exact ⟨[], by simp [item_neighbors, hx1]⟩
          · exact hinv x hx2

theorem collect_roots_char (ctx : Ctx)
    (enum : Finset MonoItem → List MonoItem) (pick : List MonoItem → Nat)
    (afuel fuel : Nat) (hEnum : ValidEnum enum) :
    ∀ (roots : List MonoItem) (collected : Finset MonoItem) (out : Finset MonoItem),
      collect_roots ctx enum pick afuel fuel roots collected = Except.ok out →
      ClosedUnder ctx afuel {z | z ∈ collected} →
      (∀ x ∈ collected, x ∈ out) ∧ (∀ r ∈ roots, r ∈ out) ∧
      ClosedUnder ctx afuel {z | z ∈ out} ∧
      (∀ x ∈ out, Reaches ctx afuel {z | z ∈ collected ∨ z ∈ roots} x) := by
  intro roots
  induction roots with
  | nil =>
    intro collected out hrun hclosed
    simp only [collect_roots] at hrun
    cases hrun
    refine ⟨fun x hx => hx, fun r hr => absurd hr (List.not_mem_nil r), hclosed, ?_⟩
    intro x hx
    exact Reaches.root (Or.inl hx)
  | cons r rs ih =>
    intro collected out hrun hclosed
    simp only [collect_roots] at hrun
    cases hrun1 : reachable_items ctx enum pick afuel fuel collected [r] with
    | error e => rw [hrun1] at hrun; exact Except.noConfusion hrun
    | ok c1 =>
      rw [hrun1] at hrun
      have hclosed1 : ClosedUnder ctx afuel {z | z ∈ c1} := by
        refine reachable_items_closed ctx enum pick afuel hEnum fuel collected [r] c1 hrun1 ?_
        intro x hx ns hns y hy
        exact Or.inl (hclosed x hx ns hns y hy)
      obtain ⟨hsupc, hsupq⟩ := reachable_items_superset ctx enum pick afuel fuel collected [r] c1 hrun1
      have hsound := reachable_items_subset_reaches ctx enum pick afuel hEnum fuel collected [r] c1 hrun1
      obtain ⟨ih1, ih2, ih3, ih4⟩ := ih c1 out hrun hclosed1
      refine ⟨fun x hx => ih1 x (hsupc x hx), ?_, ih3, ?_⟩
      · intro root hroot
        rcases List.mem_cons.mp hroot with h1 | h2
        · exact h1 ▸ ih1 r (hsupq r (List.mem_singleton_self r))
        · exact ih2 root h2
      · intro x hx
        refine reaches_trans ?_ (ih4 x hx)
        intro b hb
        rcases hb with hb | hb
        · refine reaches_mono ?_ (hsound b hb)
          intro z hz
          rcases hz with hz | hz
          · exact Or.inl hz
          · have hz2 : z = r := by simpa using hz
            exact Or.inr (hz2 ▸ List.mem_cons_self r rs)
        · exact Reaches.root (Or.inr (List.mem_cons_of_mem r hb))

theorem collect_reachable_items_ok_inv {ctx : Ctx}
    {enum : Finset MonoItem → List MonoItem} {pick : List MonoItem → Nat}
    {afuel fuel : Nat} {roots out : List MonoItem}
    (hrun : collect_reachable_items ctx enum pick afuel fuel roots = Except.ok out) :
    ∃ c : Finset MonoItem,
      collect_roots ctx enum pick afuel fuel roots ∅ = Except.ok c ∧
      out = List.insertionSort (fingerprintLe ctx) (enum c) := by
  unfold collect_reachable_items at hrun
  cases hc : collect_roots ctx enum pick afuel fuel roots ∅ with
  | error e => rw [hc] at hrun; exact Except.noConfusion hrun
  | ok c =>
    rw [hc] at hrun
    cases hrun
    exact ⟨c, rfl, rfl⟩

theorem collect_reachable_items_mem_iff {ctx : Ctx}
    {enum : Finset MonoItem → List MonoItem} {pick : List MonoItem → Nat}
    {afuel fuel : Nat} {roots out : List MonoItem}
    (hEnum : ValidEnum enum)
    (hrun : collect_reachable_items ctx enum pick afuel fuel roots = Except.ok out) :
    ∀ x : MonoItem, x ∈ out ↔ Reaches ctx afuel {z | z ∈ roots} x := by
  obtain ⟨c, hc, hout⟩ := collect_reachable_items_ok_inv hrun
  have hclosed0 : ClosedUnder ctx afuel {z | z ∈ (∅ : Finset MonoItem)} := by
    intro x hx
    exact absurd hx (by simp)
  obtain ⟨_, hroots, hclosed, hreach⟩ :=
    collect_roots_char ctx enum pick afuel fuel hEnum roots ∅ c hc hclosed0
  intro x
  have hmemc : x ∈ out ↔ x ∈ c := by
    rw [hout]
    constructor
    · intro hx
      exact ((hEnum c).2 x).mp ((List.perm_insertionSort (fingerprintLe ctx) (enum c)).mem_iff.mp hx)
    · intro hx
      exact (List.perm_insertionSort (fingerprintLe ctx) (enum c)).mem_iff.mpr (((hEnum c).2 x).mpr hx)
  rw [hmemc]
  constructor
  · intro hx
    refine reaches_mono ?_ (hreach x hx)
    intro z hz
    rcases hz with hz | hz
    · exact absurd hz (by simp)
    · exact hz
  · intro hx
    exact reaches_subset_of_closed (fun z hz => hroots z hz) hclosed hx

theorem enum_length {enum : Finset MonoItem → List MonoItem}
    (hEnum : ValidEnum enum) (s : Finset MonoItem) :
    (enum s).length = s.card := by
  obtain ⟨hnd, hmem⟩ := hEnum s
  have hperm : List.Perm (enum s) s.toList :=
    List.perm_of_nodup_nodup_toFinset_eq hnd s.nodup_toList (by
      ext x
      simp [List.mem_toFinset, hmem x, Finset.mem_toList])
  simpa [Finset.length_toList] using hperm.length_eq

theorem reachable_items_ne_outOfFuel (ctx : Ctx)
    (enum : Finset MonoItem → List MonoItem) (pick : List MonoItem → Nat)
    (afuel : Nat) (hEnum : ValidEnum enum) (U : Finset MonoItem)
    (HU : ∀ x ∈ U, neighbors_within ctx afuel U x = true)
    (HNF : ∀ x ∈ U, item_neighbors ctx afuel x ≠ Except.error CollectError.outOfFuel) :
    ∀ (fuel : Nat) (collected : Finset MonoItem) (queue : List MonoItem),
      (∀ y ∈ queue, y ∈ U) →
      queue.length + Finset.sum (U \ collected) (itemWeight ctx afuel) ≤ fuel →
      reachable_items ctx enum pick afuel fuel collected queue ≠
        Except.error CollectError.outOfFuel := by
  intro fuel
  induction fuel with
  | zero =>
    intro collected queue hq hfuel
    cases queue with
    | nil => simp [reachable_items]
    | cons a as => simp at hfuel
  | succ fuel ih =>
    intro collected queue hq hfuel
    cases queue with
    | nil => simp [reachable_items]
    | cons a as =>
      simp only [reachable_items]
      have hilt : pick (a :: as) % (a :: as).length < (a :: as).length :=
        Nat.mod_lt _ (by simp)
      generalize htv : (a :: as).getD (pick (a :: as) % (a :: as).length) a = toVisit
      generalize hrest : (a :: as).eraseIdx (pick (a :: as) % (a :: as).length) = rest
      have htvq : toVisit ∈ a :: as := htv ▸ getD_mem_of_lt hilt
      have hrestq : ∀ y ∈ rest, y ∈ U := fun y hy => hq y (mem_of_mem_eraseIdx (hrest ▸ hy))
      have hrestlen : rest.length + 1 = (a :: as).length := by
        rw [← hrest]
        exact List.length_eraseIdx_add_one hilt
      by_cases hmem : toVisit ∈ collected
      · rw [if_pos hmem]
        refine ih collected rest hrestq ?_
        have : (a :: as).length + Finset.sum (U \ collected) (itemWeight ctx afuel) ≤ fuel + 1 := hfuel
        omega
      · rw [if_neg hmem]
        have htvU : toVisit ∈ U := hq toVisit htvq
        have htvsd : toVisit ∈ U \ collected := Finset.mem_sdiff.mpr ⟨htvU, hmem⟩
        have hsum : itemWeight ctx afuel toVisit
            + Finset.sum ((U \ collected).erase toVisit) (itemWeight ctx afuel)
            = Finset.sum (U \ collected) (itemWeight ctx afuel) :=
          Finset.add_sum_erase _ _ htvsd
        have herase : (U \ collected).erase toVisit = U \ insert toVisit collected :=
          (Finset.sdiff_insert U collected toVisit).symm
        cases toVisit with
        | fn inst =>
          dsimp only
          cases hvf : visit_fn ctx enum afuel inst with
          | error e =>
            intro hcon
            have hne := HNF _ htvU
            have hbody := visit_fn_error_inv hvf
            have hni : item_neighbors ctx afuel (MonoItem.fn inst) = Except.error e := by
              simpa [item_neighbors] using hbody
            have he : e = CollectError.outOfFuel := (Except.error.injEq _ _).mp hcon
            exact hne (he ▸ hni)
          | ok items =>
            obtain ⟨ns0, hns0, hitems⟩ := visit_fn_ok_iff hvf
            have hnb : item_neighbors ctx afuel (MonoItem.fn inst) = Except.ok ns0 := by
              simpa [item_neighbors] using hns0
            have hwt : itemWeight ctx afuel (MonoItem.fn inst) = 1 + ns0.length := by
              simp [itemWeight, hnb]
            have hext : ∀ b ∈ items.filter (fun it => decide (it ∉ insert (MonoItem.fn inst) collected)), b ∈ U := by
              intro b hb
              have hbe : b ∈ items := List.mem_of_mem_filter hb
              have hbns : b ∈ ns0 := by
                rw [hitems] at hbe
                exact List.mem_toFinset.mp (((hEnum ns0.toFinset).2 b).mp hbe)
              have hall := HU _ htvU
              simp only [neighbors_within, hnb, List.all_eq_true] at hall
              simpa using hall b hbns
            have hextlen : (items.filter (fun it => decide (it ∉ insert (MonoItem.fn inst) collected))).length ≤ ns0.length := by
              calc (items.filter (fun it => decide (it ∉ insert (MonoItem.fn inst) collected))).length
                  ≤ items.length := List.length_filter_le _ _
                _ = ns0.toFinset.card := by rw [hitems]; exact enum_length hEnum _
                _ ≤ ns0.length := List.toFinset_card_le ns0
            refine ih _ _ ?_ ?_
            · intro y hy
              rcases List.mem_append.mp hy with hy | hy
              · exact hrestq y hy
              · exact hext y hy
            · rw [List.length_append]
              rw [herase] at hsum
              have h1 : (a :: as).length + Finset.sum (U \ collected) (itemWeight ctx afuel) ≤ fuel + 1 := hfuel
              omega
        | staticVar defId =>
          dsimp only
          cases hvs : visit_static ctx afuel defId with
          | error e =>
            intro hcon
            have hne := HNF _ htvU
            have : item_neighbors ctx afuel (MonoItem.staticVar defId) = Except.error e := by
              simpa [item_neighbors] using hvs
            have he : e = CollectError.outOfFuel := (Except.error.injEq _ _).mp hcon
            exact hne (he ▸ this)
          | ok items =>
            have hnb : item_neighbors ctx afuel (MonoItem.staticVar defId) = Except.ok items := by
              simpa [item_neighbors] using hvs
            have hwt : itemWeight ctx afuel (MonoItem.staticVar defId) = 1 + items.length := by
              simp [itemWeight, hnb]
            have hext : ∀ b ∈ items, b ∈ U := by
              intro b hb
              have hall := HU _ htvU
              simp only [neighbors_within, hnb, List.all_eq_true] at hall
              simpa using hall b hb
            refine ih _ _ ?_ ?_
            · intro y hy
              rcases List.mem_append.mp hy with hy | hy
              · exact hrestq y hy
              · exact hext y hy
            · rw [List.length_append]
              rw [herase] at hsum
              have h1 : (a :: as).length + Finset.sum (U \ collected) (itemWeight ctx afuel) ≤ fuel + 1 := hfuel
              omega
        | globalAsm asmId =>
          dsimp only
          have hwt : itemWeight ctx afuel (MonoItem.globalAsm asmId) = 1 := by
            simp [itemWeight, item_neighbors]
          refine ih _ _ hrestq ?_
          rw [herase] at hsum
          have h1 : (a :: as).length + Finset.sum (U \ collected) (itemWeight ctx afuel) ≤ fuel + 1 := hfuel
          omega

theorem collect_roots_ne_outOfFuel (ctx : Ctx)
    (enum : Finset MonoItem → List MonoItem) (pick : List MonoItem → Nat)
    (afuel : Nat) (hEnum : ValidEnum enum) (U : Finset MonoItem)
    (HU : ∀ x ∈ U, neighbors_within ctx afuel U x = true)
    (HNF : ∀ x ∈ U, item_neighbors ctx afuel x ≠ Except.error CollectError.outOfFuel)
    (fuel : Nat)
    (hfuel : 1 + Finset.sum U (itemWeight ctx afuel) ≤ fuel) :
    ∀ (roots : List MonoItem) (collected : Finset MonoItem),
      (∀ r ∈ roots, r ∈ U) →
      collect_roots ctx enum pick afuel fuel roots collected ≠
        Except.error CollectError.outOfFuel := by
  intro roots
  induction roots with
  | nil =>
    intro collected hroots
    simp [collect_roots]
  | cons r rs ih =>
    intro collected hroots
    simp only [collect_roots]
    cases hrun1 : reachable_items ctx enum pick afuel fuel collected [r] with
    | error e =>
      intro hcon
      have he : e = CollectError.outOfFuel := (Except.error.injEq _ _).mp hcon
      refine reachable_items_ne_outOfFuel ctx enum pick afuel hEnum U HU HNF fuel collected [r] ?_ ?_ (he ▸ hrun1)
      · intro y hy
        have : y = r := by simpa using hy
        exact this ▸ hroots r (List.mem_cons_self r rs)
      · have hle : Finset.sum (U \ collected) (itemWeight ctx afuel) ≤ Finset.sum U (itemWeight ctx afuel) :=
          Finset.sum_le_sum_of_subset (Finset.sdiff_subset)
        simp only [List.length_singleton]
        omega
    | ok c1 =>
      exact ih c1 (fun root hroot => hroots root (List.mem_cons_of_mem r hroot))

theorem collect_reachable_items_ne_outOfFuel (ctx : Ctx)
    (enum : Finset MonoItem → List MonoItem) (pick : List MonoItem → Nat)
    (afuel : Nat) (hEnum : ValidEnum enum) (U : Finset MonoItem)
    (HU : ∀ x ∈ U, neighbors_within ctx afuel U x = true)
    (HNF : ∀ x ∈ U, item_neighbors ctx afuel x ≠ Except.error CollectError.outOfFuel)
    (fuel : Nat)
    (hfuel : 1 + Finset.sum U (itemWeight ctx afuel) ≤ fuel)
    (roots : List MonoItem) (hroots : ∀ r ∈ roots, r ∈ U) :
    collect_reachable_items ctx enum pick afuel fuel roots ≠
      Except.error CollectError.outOfFuel := by
  unfold collect_reachable_items
  cases hc : collect_roots ctx enum pick afuel fuel roots ∅ with
  | error e =>
    intro hcon
    have he : e = CollectError.outOfFuel := (Except.error.injEq _ _).mp hcon
    exact collect_roots_ne_outOfFuel ctx enum pick afuel hEnum U HU HNF fuel hfuel roots ∅ hroots (he ▸ hc)
  | ok c =>
    intro hcon
    exact Except.noConfusion hcon

theorem validEnum_enumSort : ValidEnum enumSort := by
  intro s
  obtain ⟨l, hl⟩ := Quot.exists_rep s.val
  have hs : enumSort s = List.insertionSort itemLe l := by
    unfold enumSort
    rw [← hl]
  have hperm : List.Perm (List.insertionSort itemLe l) l :=
    List.perm_insertionSort itemLe l
  have hnodupl : l.Nodup := by
    have hnd := s.nodup
    rw [← hl] at hnd
    exact hnd
  constructor
  · rw [hs]
    exact hperm.nodup_iff.mpr hnodupl
  · intro x
    rw [hs, hperm.mem_iff]
    have : (x ∈ s) = (x ∈ s.val) := rfl
    rw [this, ← hl]
    exact Iff.symm (Multiset.mem_coe)

/-- C1: for every root set, the set of items returned by
`collect_reachable_items` is the least fixed point containing the roots and
closed under the edge-generation rules: membership in the output is
equivalent to derivability by the inductive reachability predicate (whose
step rule is exactly the collector's neighbor generation, eligibility filter
included), and the output is contained in every set that contains the roots
and is closed under those rules. -/
theorem collect_is_least_fixed_point (ctx : Ctx)
    (enum : Finset MonoItem → List MonoItem) (pick : List MonoItem → Nat)
    (afuel fuel : Nat) (roots out : List MonoItem)
    (hEnum : ValidEnum enum)
    (hrun : collect_reachable_items ctx enum pick afuel fuel roots = Except.ok out) :
    (∀ x : MonoItem, x ∈ out ↔ Reaches ctx afuel {z | z ∈ roots} x) ∧
    (∀ S : Set MonoItem, (∀ r ∈ roots, r ∈ S) → ClosedUnder ctx afuel S →
      ∀ x ∈ out, x ∈ S) := by
  have hiff := collect_reachable_items_mem_iff hEnum hrun
  refine ⟨hiff, ?_⟩
  intro S hroots hclosed x hx
  exact reaches_subset_of_closed (fun z hz => hroots z hz) hclosed ((hiff x).mp hx)

/-- Witness for C1 at the concrete demo context. -/
theorem collect_is_least_fixed_point_witness :
    ValidEnum enumSort ∧
    collect_reachable_items ctxDemo enumSort pickLast 2 20 [MonoItem.fn instF]
      = Except.ok [MonoItem.fn instF, MonoItem.staticVar 5, MonoItem.fn instG,
          MonoItem.fn instDropS] ∧
    (∀ x : MonoItem,
      x ∈ [MonoItem.fn instF, MonoItem.staticVar 5, MonoItem.fn instG, MonoItem.fn instDropS] ↔
        Reaches ctxDemo 2 {z | z ∈ [MonoItem.fn instF]} x) := by
  have hEnum : ValidEnum enumSort := validEnum_enumSort
  have hrun : collect_reachable_items ctxDemo enumSort pickLast 2 20 [MonoItem.fn instF]
      = Except.ok [MonoItem.fn instF, MonoItem.staticVar 5, MonoItem.fn instG,
          MonoItem.fn instDropS] := by rfl
  exact ⟨hEnum, hrun,
    (collect_is_least_fixed_point ctxDemo enumSort pickLast 2 20 _ _ hEnum hrun).1⟩

/-- C9: for root sets `R1 ⊆ R2`, every item collected from `R1` is also
collected from `R2` — the collected set is monotone in the root set. -/
theorem collect_monotone_in_roots (ctx : Ctx)
    (enum1 enum2 : Finset MonoItem → List MonoItem)
    (pick1 pick2 : List MonoItem → Nat) (afuel fuel1 fuel2 : Nat)
    (roots1 roots2 out1 out2 : List MonoItem)
    (hEnum1 : ValidEnum enum1) (hEnum2 : ValidEnum enum2)
    (hsub : ∀ r ∈ roots1, r ∈ roots2)
    (h1 : collect_reachable_items ctx enum1 pick1 afuel fuel1 roots1 = Except.ok out1)
    (h2 : collect_reachable_items ctx enum2 pick2 afuel fuel2 roots2 = Except.ok out2) :
    ∀ x ∈ out1, x ∈ out2 := by
  intro x hx
  have hr := (collect_reachable_items_mem_iff hEnum1 h1 x).mp hx
  exact (collect_reachable_items_mem_iff hEnum2 h2 x).mpr
    (reaches_mono (fun z hz => hsub z hz) hr)

/-- Witness for C9 at the demo context with nested root lists. -/
theorem collect_monotone_in_roots_witness :
    ValidEnum enumSort ∧
    (∀ r ∈ [MonoItem.fn instG], r ∈ [MonoItem.fn instF, MonoItem.fn instG]) ∧
    collect_reachable_items ctxDemo enumSort pickLast 2 20 [MonoItem.fn instG]
      = Except.ok [MonoItem.fn instF, MonoItem.staticVar 5, MonoItem.fn instG,
          MonoItem.fn instDropS] ∧
    collect_reachable_items ctxDemo enumSort pickLast 2 20 [MonoItem.fn instF, MonoItem.fn instG]
      = Except.ok [MonoItem.fn instF, MonoItem.staticVar 5, MonoItem.fn instG,
          MonoItem.fn instDropS] ∧
    (∀ x ∈ [MonoItem.fn instF, MonoItem.staticVar 5, MonoItem.fn instG, MonoItem.fn instDropS],
      x ∈ [MonoItem.fn instF, MonoItem.staticVar 5, MonoItem.fn instG, MonoItem.fn instDropS]) := by
  have hEnum : ValidEnum enumSort := validEnum_enumSort
  have hsub : ∀ r ∈ [MonoItem.fn instG], r ∈ [MonoItem.fn instF, MonoItem.fn instG] := by decide
  have h1 : collect_reachable_items ctxDemo enumSort pickLast 2 20 [MonoItem.fn instG]
      = Except.ok [MonoItem.fn instF, MonoItem.staticVar 5, MonoItem.fn instG,
          MonoItem.fn instDropS] := by rfl
  have h2 : collect_reachable_items ctxDemo enumSort pickLast 2 20 [MonoItem.fn instF, MonoItem.fn instG]
      = Except.ok [MonoItem.fn instF, MonoItem.staticVar 5, MonoItem.fn instG,
          MonoItem.fn instDropS] := by rfl
  exact ⟨hEnum, hsub, h1, h2,
    collect_monotone_in_roots ctxDemo enumSort enumSort pickLast pickLast 2 20 20 _ _ _ _
      hEnum hEnum hsub h1 h2⟩

theorem validEnum_enumSortRev : ValidEnum enumSortRev := by
  intro s
  obtain ⟨hnd, hmem⟩ := validEnum_enumSort s
  constructor
  · exact (List.nodup_reverse).mpr hnd
  · intro x
    rw [enumSortRev, List.mem_reverse]
    exact hmem x

/-- C3: two runs from fresh engines on root sets with the same elements —
regardless of root insertion order, worklist pop order (`pick`) and hash-set
iteration order (`enum`) — return identical ordered sequences, provided the
content fingerprint is injective: the final order is derived only from the
stable fingerprint of each item. -/
theorem collect_deterministic_output (ctx : Ctx)
    (enum1 enum2 : Finset MonoItem → List MonoItem)
    (pick1 pick2 : List MonoItem → Nat) (afuel fuel1 fuel2 : Nat)
    (roots1 roots2 out1 out2 : List MonoItem)
    (hEnum1 : ValidEnum enum1) (hEnum2 : ValidEnum enum2)
    (hinj : Function.Injective ctx.fingerprint)
    (hroots : ∀ x : MonoItem, x ∈ roots1 ↔ x ∈ roots2)
    (h1 : collect_reachable_items ctx enum1 pick1 afuel fuel1 roots1 = Except.ok out1)
    (h2 : collect_reachable_items ctx enum2 pick2 afuel fuel2 roots2 = Except.ok out2) :
    out1 = out2 := by
  haveI htr : IsTrans MonoItem (fingerprintLe ctx) :=
    ⟨fun _ _ _ hab hbc => Nat.le_trans hab hbc⟩
  haveI hto : IsTotal MonoItem (fingerprintLe ctx) :=
    ⟨fun a b => Nat.le_total (ctx.fingerprint a) (ctx.fingerprint b)⟩
  haveI has : IsAntisymm MonoItem (fingerprintLe ctx) :=
    ⟨fun _ _ hab hba => hinj (Nat.le_antisymm hab hba)⟩
  have hmem : ∀ x : MonoItem, x ∈ out1 ↔ x ∈ out2 := by
    intro x
    rw [collect_reachable_items_mem_iff hEnum1 h1 x,
        collect_reachable_items_mem_iff hEnum2 h2 x]
    constructor
    · exact fun h => reaches_mono (fun z hz => (hroots z).mp hz) h
    · exact fun h => reaches_mono (fun z hz => (hroots z).mpr hz) h
  obtain ⟨c1, hc1, hout1⟩ := collect_reachable_items_ok_inv h1
  obtain ⟨c2, hc2, hout2⟩ := collect_reachable_items_ok_inv h2
  have hnd1 : out1.Nodup := by
    rw [hout1]
    exact ((List.perm_insertionSort (fingerprintLe ctx) (enum1 c1)).nodup_iff).mpr (hEnum1 c1).1
  have hnd2 : out2.Nodup := by
    rw [hout2]
    exact ((List.perm_insertionSort (fingerprintLe ctx) (enum2 c2)).nodup_iff).mpr (hEnum2 c2).1
  have hperm : List.Perm out1 out2 :=
    List.perm_of_nodup_nodup_toFinset_eq hnd1 hnd2 (by
      ext x
      simpa [List.mem_toFinset] using hmem x)
  have hs1 : List.Sorted (fingerprintLe ctx) out1 := by
    rw [hout1]
    exact List.sorted_insertionSort (fingerprintLe ctx) (enum1 c1)
  have hs2 : List.Sorted (fingerprintLe ctx) out2 := by
    rw [hout2]
    exact List.sorted_insertionSort (fingerprintLe ctx) (enum2 c2)
  exact List.eq_of_perm_of_sorted hperm hs1 hs2

/-- Witness for C3: two runs with different enumeration orders, pop
policies and root orders produce the same sorted sequence. -/
theorem collect_deterministic_output_witness :
    ValidEnum enumSort ∧ ValidEnum enumSortRev ∧
    Function.Injective ctxDemo.fingerprint ∧
    (∀ x : MonoItem, x ∈ [MonoItem.fn instF, MonoItem.fn instG] ↔
      x ∈ [MonoItem.fn instG, MonoItem.fn instF]) ∧
    collect_reachable_items ctxDemo enumSort pickLast 2 20 [MonoItem.fn instF, MonoItem.fn instG]
      = Except.ok [MonoItem.fn instF, MonoItem.staticVar 5, MonoItem.fn instG,
          MonoItem.fn instDropS] ∧
    collect_reachable_items ctxDemo enumSortRev pickFirst 2 25 [MonoItem.fn instG, MonoItem.fn instF]
      = Except.ok [MonoItem.fn instF, MonoItem.staticVar 5, MonoItem.fn instG,
          MonoItem.fn instDropS] ∧
    ([MonoItem.fn instF, MonoItem.staticVar 5, MonoItem.fn instG, MonoItem.fn instDropS]
      : List MonoItem)
      = [MonoItem.fn instF, MonoItem.staticVar 5, MonoItem.fn instG, MonoItem.fn instDropS] := by
  have hE1 : ValidEnum enumSort := validEnum_enumSort
  have hE2 : ValidEnum enumSortRev := validEnum_enumSortRev
  have hinj : Function.Injective ctxDemo.fingerprint := itemKey_injective
  have hroots : ∀ x : MonoItem, x ∈ [MonoItem.fn instF, MonoItem.fn instG] ↔
      x ∈ [MonoItem.fn instG, MonoItem.fn instF] := by
    intro x
    constructor <;> intro h <;> simp only [List.mem_cons, List.not_mem_nil, or_false] at h ⊢ <;> tauto
  have h1 : collect_reachable_items ctxDemo enumSort pickLast 2 20
      [MonoItem.fn instF, MonoItem.fn instG]
      = Except.ok [MonoItem.fn instF, MonoItem.staticVar 5, MonoItem.fn instG,
          MonoItem.fn instDropS] := by rfl
  have h2 : collect_reachable_items ctxDemo enumSortRev pickFirst 2 25
      [MonoItem.fn instG, MonoItem.fn instF]
      = Except.ok [MonoItem.fn instF, MonoItem.staticVar 5, MonoItem.fn instG,
          MonoItem.fn instDropS] := by rfl
  exact ⟨hE1, hE2, hinj, hroots, h1, h2,
    collect_deterministic_output ctxDemo enumSort enumSortRev pickLast pickFirst 2 20 25 _ _ _ _
      hE1 hE2 hinj hroots h1 h2⟩

/-- C2: for every finite root set, collection terminates — whenever a finite
universe `U` contains the roots and is closed under neighbor generation, any
fuel beyond one plus the total neighbor weight of `U` can never be exhausted
(each popped item is inserted into the closed set before its neighbors are
computed, so no item is expanded twice) — and on the concrete mutually
recursive pair `instF`/`instG` the collector returns exactly `{f, g}` plus
their static dependents, without duplication. -/
theorem collect_terminates_and_cycles (ctx : Ctx)
    (enum : Finset MonoItem → List MonoItem) (pick : List MonoItem → Nat)
    (afuel : Nat) (hEnum : ValidEnum enum) (U : Finset MonoItem)
    (HU : ∀ x ∈ U, neighbors_within ctx afuel U x = true)
    (HNF : ∀ x ∈ U, item_neighbors ctx afuel x ≠ Except.error CollectError.outOfFuel)
    (fuel : Nat) (hfuel : 1 + Finset.sum U (itemWeight ctx afuel) ≤ fuel)
    (roots : List MonoItem) (hroots : ∀ r ∈ roots, r ∈ U) :
    collect_reachable_items ctx enum pick afuel fuel roots ≠
      Except.error CollectError.outOfFuel ∧
    collect_reachable_items ctxDemo enumSort pickLast 2 20 [MonoItem.fn instF]
      = Except.ok [MonoItem.fn instF, MonoItem.staticVar 5, MonoItem.fn instG,
          MonoItem.fn instDropS] := by
  refine ⟨collect_reachable_items_ne_outOfFuel ctx enum pick afuel hEnum U HU HNF
    fuel hfuel roots hroots, ?_⟩
  rfl

/-- Witness for C2 at the concrete demo context. -/
theorem collect_terminates_and_cycles_witness :
    ValidEnum enumSort ∧
    (∀ x ∈ ({MonoItem.fn instF, MonoItem.staticVar 5, MonoItem.fn instG,
        MonoItem.fn instDropS} : Finset MonoItem),
      neighbors_within ctxDemo 2 {MonoItem.fn instF, MonoItem.staticVar 5, MonoItem.fn instG,
        MonoItem.fn instDropS} x = true) ∧
    (∀ x ∈ ({MonoItem.fn instF, MonoItem.staticVar 5, MonoItem.fn instG,
        MonoItem.fn instDropS} : Finset MonoItem),
      item_neighbors ctxDemo 2 x ≠ Except.error CollectError.outOfFuel) ∧
    (1 + Finset.sum ({MonoItem.fn instF, MonoItem.staticVar 5, MonoItem.fn instG,
        MonoItem.fn instDropS} : Finset MonoItem) (itemWeight ctxDemo 2) ≤ 20) ∧
    (∀ r ∈ [MonoItem.fn instF], r ∈ ({MonoItem.fn instF, MonoItem.staticVar 5, MonoItem.fn instG,
        MonoItem.fn instDropS} : Finset MonoItem)) ∧
    collect_reachable_items ctxDemo enumSort pickLast 2 20 [MonoItem.fn instF] ≠
      Except.error CollectError.outOfFuel ∧
    collect_reachable_items ctxDemo enumSort pickLast 2 20 [MonoItem.fn instF]
      = Except.ok [MonoItem.fn instF, MonoItem.staticVar 5, MonoItem.fn instG,
          MonoItem.fn instDropS] := by
  have hEnum : ValidEnum enumSort := validEnum_enumSort
  have HU : ∀ x ∈ ({MonoItem.fn instF, MonoItem.staticVar 5, MonoItem.fn instG,
      MonoItem.fn instDropS} : Finset MonoItem),
      neighbors_within ctxDemo 2 {MonoItem.fn instF, MonoItem.staticVar 5, MonoItem.fn instG,
        MonoItem.fn instDropS} x = true := by decide
  have HNF : ∀ x ∈ ({MonoItem.fn instF, MonoItem.staticVar 5, MonoItem.fn instG,
      MonoItem.fn instDropS} : Finset MonoItem),
      item_neighbors ctxDemo 2 x ≠ Except.error CollectError.outOfFuel := by decide
  have hfuel : 1 + Finset.sum ({MonoItem.fn instF, MonoItem.staticVar 5, MonoItem.fn instG,
      MonoItem.fn instDropS} : Finset MonoItem) (itemWeight ctxDemo 2) ≤ 20 := by decide
  have hroots : ∀ r ∈ [MonoItem.fn instF], r ∈ ({MonoItem.fn instF, MonoItem.staticVar 5,
      MonoItem.fn instG, MonoItem.fn instDropS} : Finset MonoItem) := by decide
  obtain ⟨hne, hexample⟩ := collect_terminates_and_cycles ctxDemo enumSort pickLast 2 hEnum
    _ HU HNF 20 hfuel [MonoItem.fn instF] hroots
  exact ⟨hEnum, HU, HNF, hfuel, hroots, hne, hexample⟩

/-- C4: a scanned concrete-to-interface coercion from concrete type `c` to
the trait object with principal `i` adds exactly the locally eligible method
entries of the vtable of `(i, c)` plus the destructor glue for `c` (emitted
with no drop instruction present); metadata, vacant and supertrait-pointer
slots contribute nothing, and nothing outside this table is added.  The two
premises hold in the compiler: `Instance::resolve_drop_in_place` always
returns a `DropGlue` instance — with no nested instance for a type with no
drop code and with one otherwise — and the `drop_in_place` definition it
exposes has a local body, so the glue passes the eligibility filter (for
`DropGlue(_, None)` eligibility is automatic). -/
theorem unsize_coercion_collects_impl_and_drop (ctx : Ctx) (c i : Nat)
    (hkind : (ctx.resolveDropInPlace (Ty.concrete c)).defKind = InstanceDefKind.dropGlueNone ∨
      (ctx.resolveDropInPlace (Ty.concrete c)).defKind = InstanceDefKind.dropGlueSome)
    (helig : should_codegen_locally ctx (ctx.resolveDropInPlace (Ty.concrete c)) = true) :
    visit_rvalue ctx
      (RvalueE.castUnsize (Ty.ref (Ty.concrete c)) (Ty.ref (Ty.dynamic (some i))))
      = Except.ok
        ((ctx.vtableEntries i (Ty.concrete c)).filterMap
          (fun entry =>
            match entry with
            | VtblEntry.metadataAlign => none
            | VtblEntry.metadataDropInPlace => none
            | VtblEntry.metadataSize => none
            | VtblEntry.vacant => none
            | VtblEntry.traitVPtr => none
            | VtblEntry.method inst =>
                if should_codegen_locally ctx inst then
                  some (MonoItem.fn (ctx.polymorphize inst))
                else none)
          ++ [MonoItem.fn (ctx.polymorphize (ctx.resolveDropInPlace (Ty.concrete c)))]) := by
  unfold visit_rvalue extract_trait_casting find_vtable_types_for_unsizing ptr_vtable
    type_has_metadata struct_lockstep_tails
  simp only [Ty.isSized, Ty.isTrait, if_true, Bool.not_false, Bool.true_and, if_pos]
  unfold collect_vtable_methods
  simp only [Ty.isTrait, Bool.not_true, if_neg, Bool.false_eq_true, not_false_iff]
  unfold collect_instance
  rcases hkind with h | h <;> rw [h] <;> simp [helig]

/-- Witness for C4 at the demo vtable (two methods, no supertrait), for
both drop-glue shapes: a type with no drop code (`DropGlue(_, None)`) and a
type with drop code (`DropGlue(_, Some(_))`, eligible exposed `DefId`). -/
theorem unsize_coercion_collects_impl_and_drop_witness :
    (((ctxDemo.resolveDropInPlace (Ty.concrete 9)).defKind = InstanceDefKind.dropGlueNone ∨
        (ctxDemo.resolveDropInPlace (Ty.concrete 9)).defKind = InstanceDefKind.dropGlueSome) ∧
      should_codegen_locally ctxDemo (ctxDemo.resolveDropInPlace (Ty.concrete 9)) = true ∧
      visit_rvalue ctxDemo
        (RvalueE.castUnsize (Ty.ref (Ty.concrete 9)) (Ty.ref (Ty.dynamic (some 20))))
        = Except.ok [MonoItem.fn instSpeak, MonoItem.fn instFeed, MonoItem.fn instDropS]) ∧
    (((ctxDrop.resolveDropInPlace (Ty.concrete 9)).defKind = InstanceDefKind.dropGlueNone ∨
        (ctxDrop.resolveDropInPlace (Ty.concrete 9)).defKind = InstanceDefKind.dropGlueSome) ∧
      should_codegen_locally ctxDrop (ctxDrop.resolveDropInPlace (Ty.concrete 9)) = true ∧
      visit_rvalue ctxDrop
        (RvalueE.castUnsize (Ty.ref (Ty.concrete 9)) (Ty.ref (Ty.dynamic (some 20))))
        = Except.ok [MonoItem.fn instSpeak, MonoItem.fn instFeed, MonoItem.fn instDropT]) := by
  have hkind1 : (ctxDemo.resolveDropInPlace (Ty.concrete 9)).defKind
        = InstanceDefKind.dropGlueNone ∨
      (ctxDemo.resolveDropInPlace (Ty.concrete 9)).defKind = InstanceDefKind.dropGlueSome :=
    Or.inl rfl
  have helig1 : should_codegen_locally ctxDemo
      (ctxDemo.resolveDropInPlace (Ty.concrete 9)) = true := by rfl
  have hkind2 : (ctxDrop.resolveDropInPlace (Ty.concrete 9)).defKind
        = InstanceDefKind.dropGlueNone ∨
      (ctxDrop.resolveDropInPlace (Ty.concrete 9)).defKind = InstanceDefKind.dropGlueSome :=
    Or.inr rfl
  have helig2 : should_codegen_locally ctxDrop
      (ctxDrop.resolveDropInPlace (Ty.concrete 9)) = true := by rfl
  refine ⟨⟨hkind1, helig1, ?_⟩, ⟨hkind2, helig2, ?_⟩⟩
  · rw [unsize_coercion_collects_impl_and_drop ctxDemo 9 20 hkind1 helig1]
    rfl
  · rw [unsize_coercion_collects_impl_and_drop ctxDrop 9 20 hkind2 helig2]
    rfl

/-- C5 (amended): popping a static always enqueues the destructor glue of
the static's type first, unconditionally and not subject to the eligibility
filter; when the initializer evaluates successfully its provenance is walked
by the allocation walker (which emits eligible statics and functions and
recurses through nested memory and vtable allocations); when the initializer
does not evaluate successfully the collector panics and the run aborts
(`eval_static_initializer(..).unwrap()`), rather than continuing. -/
theorem visit_static_drop_and_walk (ctx : Ctx) (afuel defId : Nat) :
    (∀ (provenance : List Nat) (items : List MonoItem),
      ctx.evalStaticInitializer defId = some provenance →
      walk_alloc_ids ctx afuel provenance = Except.ok items →
      visit_static ctx afuel defId
        = Except.ok (MonoItem.fn (ctx.polymorphize
            (ctx.resolveDropInPlace (ctx.staticTy defId))) :: items)) ∧
    (ctx.evalStaticInitializer defId = none →
      visit_static ctx afuel defId = Except.error CollectError.evalStaticFailed) ∧
    (∀ (allocId d : Nat), ctx.globalAlloc allocId = GlobalAllocKind.staticAlloc d →
      ctx.isThreadLocalStatic d = false →
      collect_alloc_items ctx (afuel + 1) allocId
        = Except.ok (if should_codegen_locally ctx (Instance.mono d)
            then [MonoItem.staticVar d] else [])) ∧
    (∀ (allocId : Nat) (inst : Instance),
      ctx.globalAlloc allocId = GlobalAllocKind.functionAlloc inst →
      collect_alloc_items ctx (afuel + 1) allocId
        = Except.ok (if should_codegen_locally ctx inst
            then [MonoItem.fn (ctx.polymorphize inst)] else [])) ∧
    (∀ (allocId : Nat) (provenance : List Nat),
      ctx.globalAlloc allocId = GlobalAllocKind.memory provenance →
      collect_alloc_items ctx (afuel + 1) allocId = walk_alloc_ids ctx afuel provenance) ∧
    (∀ (allocId traitId : Nat) (ty : Ty),
      ctx.globalAlloc allocId = GlobalAllocKind.vtableAlloc ty traitId →
      collect_alloc_items ctx (afuel + 1) allocId
        = collect_alloc_items ctx afuel (ctx.vtableAllocation ty traitId)) := by
  refine ⟨?_, ?_, ?_, ?_, ?_, ?_⟩
  · intro provenance items hev hwalk
    unfold visit_static
    rw [hev]
    dsimp only
    rw [hwalk]
  · intro hev
    unfold visit_static
    rw [hev]
  · intro allocId d hga htl
    unfold collect_alloc_items
    rw [hga]
    dsimp only
    rw [htl]
    by_cases h : should_codegen_locally ctx (Instance.mono d) <;> simp [h]
  · intro allocId inst hga
    unfold collect_alloc_items
    rw [hga]
    dsimp only
    by_cases h : should_codegen_locally ctx inst <;> simp [h]
  · intro allocId provenance hga
    unfold collect_alloc_items
    rw [hga]
    rfl
  · intro allocId traitId ty hga
    unfold collect_alloc_items
    rw [hga]
    dsimp only
    rw [collect_alloc_items.eq_def]

/-- Counterexample to C5 as stated: on a static whose initializer fails to
evaluate, the run does not continue — the whole collection aborts with
`evalStaticFailed` instead of producing an output. -/
theorem visit_static_eval_failure_aborts_cex :
    visit_static ctxDemo 2 6 = Except.error CollectError.evalStaticFailed ∧
    collect_reachable_items ctxDemo enumSort pickLast 2 20 [MonoItem.staticVar 6]
      = Except.error CollectError.evalStaticFailed := by
  exact ⟨rfl, rfl⟩

/-- Witness for the amended C5 at the demo statics. -/
theorem visit_static_drop_and_walk_witness :
    (ctxDemo.evalStaticInitializer 5 = some [] ∧
      walk_alloc_ids ctxDemo 2 [] = Except.ok [] ∧
      visit_static ctxDemo 2 5 = Except.ok [MonoItem.fn instDropS]) ∧
    (ctxDemo.evalStaticInitializer 6 = none ∧
      visit_static ctxDemo 2 6 = Except.error CollectError.evalStaticFailed) ∧
    (ctxDemo.globalAlloc 7 = GlobalAllocKind.staticAlloc 5 ∧
      ctxDemo.isThreadLocalStatic 5 = false ∧
      collect_alloc_items ctxDemo 2 7
        = Except.ok (if should_codegen_locally ctxDemo (Instance.mono 5)
            then [MonoItem.staticVar 5] else [])) := by
  obtain ⟨h1, h2, h3, _, _, _⟩ := visit_static_drop_and_walk ctxDemo 2 5
  refine ⟨⟨rfl, rfl, ?_⟩, ⟨rfl, ?_⟩, ⟨rfl, rfl, ?_⟩⟩
  · exact h1 [] [] rfl rfl
  · exact (visit_static_drop_and_walk ctxDemo 2 6).2.1 rfl
  · exact h3 7 5 rfl rfl

theorem visit_body_event_ok {ctx : Ctx} {afuel : Nat} :
    ∀ {body : List Event} {items : List MonoItem},
      visit_body ctx afuel body = Except.ok items →
      ∀ e ∈ body, ∃ its : List MonoItem, visit_event ctx afuel e = Except.ok its := by
  intro body
  induction body with
  | nil => intro items _ e he; exact absurd he (List.not_mem_nil e)
  | cons e0 rest ih =>
    intro items hb e he
    simp only [visit_body] at hb
    cases hev : visit_event ctx afuel e0 with
    | error err => rw [hev] at hb; exact Except.noConfusion hb
    | ok its0 =>
      rw [hev] at hb
      cases hrest : visit_body ctx afuel rest with
      | error err => rw [hrest] at hb; exact Except.noConfusion hb
      | ok more =>
        rcases List.mem_cons.mp he with h1 | h2
        · exact ⟨its0, h1 ▸ hev⟩
        · exact ih hrest e h2

theorem collect_roots_visit_ok (ctx : Ctx)
    (enum : Finset MonoItem → List MonoItem) (pick : List MonoItem → Nat)
    (afuel fuel : Nat) :
    ∀ (roots : List MonoItem) (collected out : Finset MonoItem),
      collect_roots ctx enum pick afuel fuel roots collected = Except.ok out →
      (∀ x ∈ collected, ∃ ns : List MonoItem, item_neighbors ctx afuel x = Except.ok ns) →
      ∀ x ∈ out, ∃ ns : List MonoItem, item_neighbors ctx afuel x = Except.ok ns := by
  intro roots
  induction roots with
  | nil =>
    intro collected out hrun hinv
    simp only [collect_roots] at hrun
    cases hrun
    exact hinv
  | cons r rs ih =>
    intro collected out hrun hinv
    simp only [collect_roots] at hrun
    cases hrun1 : reachable_items ctx enum pick afuel fuel collected [r] with
    | error e => rw [hrun1] at hrun; exact Except.noConfusion hrun
    | ok c1 =>
      rw [hrun1] at hrun
      exact ih c1 out hrun
        (reachable_items_visit_ok ctx enum pick afuel fuel collected [r] c1 hrun1 hinv)

/-- C6: a scanned direct call whose callee resolves to exactly one instance
is collected through `collect_instance`; if resolution does not yield exactly
one candidate the scan aborts fatally with
`ambiguousOrMissingCallResolution`; and no partial closed set escapes — any
successful collection implies every direct call in every collected body
resolved to exactly one candidate. -/
theorem direct_call_unique_resolution_or_abort (ctx : Ctx) :
    (∀ (d sub : Nat) (inst : Instance), ctx.resolveFn d sub = some (some inst) →
      visit_terminator ctx (TerminatorE.call (CallTyE.fnDef d sub))
        = collect_instance ctx inst true) ∧
    (∀ d sub : Nat, (∀ inst : Instance, ctx.resolveFn d sub ≠ some (some inst)) →
      visit_terminator ctx (TerminatorE.call (CallTyE.fnDef d sub))
        = Except.error CollectError.ambiguousOrMissingCallResolution) ∧
    (∀ (enum : Finset MonoItem → List MonoItem) (pick : List MonoItem → Nat)
      (afuel fuel : Nat) (roots out : List MonoItem) (inst : Instance) (d sub : Nat),
      ValidEnum enum →
      collect_reachable_items ctx enum pick afuel fuel roots = Except.ok out →
      MonoItem.fn inst ∈ out →
      Event.terminator (TerminatorE.call (CallTyE.fnDef d sub)) ∈ ctx.instanceBody inst →
      ∃ inst2 : Instance, ctx.resolveFn d sub = some (some inst2)) := by
  refine ⟨?_, ?_, ?_⟩
  · intro d sub inst hres
    unfold visit_terminator
    dsimp only
    rw [hres]
  · intro d sub hres
    unfold visit_terminator
    dsimp only
    cases hr : ctx.resolveFn d sub with
    | none => rfl
    | some o =>
      cases o with
      | none => rfl
      | some inst => exact absurd hr (hres inst)
  · intro enum pick afuel fuel roots out inst d sub hEnum hrun hmem hev
    obtain ⟨c, hc, hout⟩ := collect_reachable_items_ok_inv hrun
    have hmemc : MonoItem.fn inst ∈ c := by
      rw [hout] at hmem
      exact ((hEnum c).2 _).mp
        ((List.perm_insertionSort (fingerprintLe ctx) (enum c)).mem_iff.mp hmem)
    have hvok := collect_roots_visit_ok ctx enum pick afuel fuel roots ∅ c hc
      (fun x hx => absurd hx (by simp)) _ hmemc
    obtain ⟨ns, hns⟩ := hvok
    have hbody : visit_body ctx afuel (ctx.instanceBody inst) = Except.ok ns := by
      simpa [item_neighbors] using hns
    obtain ⟨its, hits⟩ := visit_body_event_ok hbody _ hev
    simp only [visit_event, visit_terminator] at hits
    cases hr : ctx.resolveFn d sub with
    | none => rw [hr] at hits; exact Except.noConfusion hits
    | some o =>
      cases o with
      | none => rw [hr] at hits; exact Except.noConfusion hits
      | some inst2 => exact ⟨inst2, rfl⟩

/-- Witness for C6 at the demo context. -/
theorem direct_call_unique_resolution_or_abort_witness :
    (ctxDemo.resolveFn 2 0 = some (some instG) ∧
      visit_terminator ctxDemo (TerminatorE.call (CallTyE.fnDef 2 0))
        = collect_instance ctxDemo instG true) ∧
    ((∀ inst : Instance, ctxDemo.resolveFn 3 0 ≠ some (some inst)) ∧
      visit_terminator ctxDemo (TerminatorE.call (CallTyE.fnDef 3 0))
        = Except.error CollectError.ambiguousOrMissingCallResolution) ∧
    (ValidEnum enumSort ∧
      collect_reachable_items ctxDemo enumSort pickLast 2 20 [MonoItem.fn instF]
        = Except.ok [MonoItem.fn instF, MonoItem.staticVar 5, MonoItem.fn instG,
            MonoItem.fn instDropS] ∧
      MonoItem.fn instF ∈ [MonoItem.fn instF, MonoItem.staticVar 5, MonoItem.fn instG,
          MonoItem.fn instDropS] ∧
      Event.terminator (TerminatorE.call (CallTyE.fnDef 2 0)) ∈ ctxDemo.instanceBody instF ∧
      ∃ inst2 : Instance, ctxDemo.resolveFn 2 0 = some (some inst2)) := by
  obtain ⟨p1, p2, p3⟩ := direct_call_unique_resolution_or_abort ctxDemo
  have hres3 : ∀ inst : Instance, ctxDemo.resolveFn 3 0 ≠ some (some inst) := by
    intro inst hc
    have : (none : Option (Option Instance)) = some (some inst) := hc
    exact Option.noConfusion this
  have hEnum : ValidEnum enumSort := validEnum_enumSort
  have hrun : collect_reachable_items ctxDemo enumSort pickLast 2 20 [MonoItem.fn instF]
      = Except.ok [MonoItem.fn instF, MonoItem.staticVar 5, MonoItem.fn instG,
          MonoItem.fn instDropS] := by rfl
  refine ⟨⟨rfl, p1 2 0 instG rfl⟩, ⟨hres3, p2 3 0 hres3⟩, hEnum, hrun, by decide, by decide, ?_⟩
  exact p3 enumSort pickLast 2 20 [MonoItem.fn instF] _ instF 2 0 hEnum hrun
    (by decide) (by decide)

/-- C7: for a constant operand, an evaluation failure already reported
upstream is silently skipped (no abort, no items); a constant still carrying
unresolved generic parameters (`TooGeneric`) aborts the run fatally; a
successful evaluation feeds the value to the allocation walker via
`collect_const_value`. -/
theorem constant_eval_cases (ctx : Ctx) (afuel u : Nat) :
    (ctx.constEvalResolve u = EvalResult.reported →
      visit_constant ctx afuel (Literal.tyConst (ConstKindE.unevaluated u))
        = Except.ok []) ∧
    (ctx.constEvalResolve u = EvalResult.tooGeneric →
      visit_constant ctx afuel (Literal.tyConst (ConstKindE.unevaluated u))
        = Except.error CollectError.ungroundedConstant) ∧
    (∀ v : ConstValue, ctx.constEvalResolve u = EvalResult.ok v →
      visit_constant ctx afuel (Literal.tyConst (ConstKindE.unevaluated u))
        = collect_const_value ctx afuel v) := by
  refine ⟨?_, ?_, ?_⟩
  · intro h
    unfold visit_constant
    dsimp only
    rw [h]
  · intro h
    unfold visit_constant
    dsimp only
    rw [h]
  · intro v h
    unfold visit_constant
    dsimp only
    rw [h]

/-- Witness for C7 on the three evaluation outcomes of the demo context. -/
theorem constant_eval_cases_witness :
    (ctxDemo.constEvalResolve 0 = EvalResult.reported ∧
      visit_constant ctxDemo 2 (Literal.tyConst (ConstKindE.unevaluated 0))
        = Except.ok []) ∧
    (ctxDemo.constEvalResolve 1 = EvalResult.tooGeneric ∧
      visit_constant ctxDemo 2 (Literal.tyConst (ConstKindE.unevaluated 1))
        = Except.error CollectError.ungroundedConstant) ∧
    (ctxDemo.constEvalResolve 2 = EvalResult.ok (ConstValue.scalarPtr 7) ∧
      visit_constant ctxDemo 2 (Literal.tyConst (ConstKindE.unevaluated 2))
        = collect_const_value ctxDemo 2 (ConstValue.scalarPtr 7)) := by
  refine ⟨⟨rfl, ?_⟩, ⟨rfl, ?_⟩, ⟨rfl, ?_⟩⟩
  · exact (constant_eval_cases ctxDemo 2 0).1 rfl
  · exact (constant_eval_cases ctxDemo 2 1).2.1 rfl
  · exact (constant_eval_cases ctxDemo 2 2).2.2 (ConstValue.scalarPtr 7) rfl

/-- C8: an item whose definition exposes a `DefId` (ordinary items and
nested drop glue) and is foreign is ineligible; `collect_instance` excludes
it while returning successfully (never aborting), also when it is referenced
only by address through a reify-pointer cast; always-synthesized shim kinds
are eligible regardless of any foreign flag. -/
theorem foreign_items_excluded_nonfatal (ctx : Ctx) :
    (∀ inst : Instance,
      (inst.defKind = InstanceDefKind.item ∨ inst.defKind = InstanceDefKind.dropGlueSome) →
      ctx.isForeignItem inst.defId = true →
      should_codegen_locally ctx inst = false) ∧
    (∀ (inst : Instance) (isDirectCall : Bool),
      (inst.defKind = InstanceDefKind.item ∨ inst.defKind = InstanceDefKind.dropGlueSome) →
      ctx.isForeignItem inst.defId = true →
      collect_instance ctx inst isDirectCall = Except.ok []) ∧
    (∀ (d sub : Nat) (inst : Instance),
      ctx.resolveForFnPtr d sub = some inst →
      (inst.defKind = InstanceDefKind.item ∨ inst.defKind = InstanceDefKind.dropGlueSome) →
      ctx.isForeignItem inst.defId = true →
      visit_rvalue ctx (RvalueE.castReifyFnPtr (FnTyE.fnDef d sub)) = Except.ok []) ∧
    (∀ inst : Instance,
      (inst.defKind = InstanceDefKind.cloneShim ∨ inst.defKind = InstanceDefKind.closureOnceShim ∨
        inst.defKind = InstanceDefKind.fnPtrShim ∨ inst.defKind = InstanceDefKind.reifyShim ∨
        inst.defKind = InstanceDefKind.vtableShim ∨ inst.defKind = InstanceDefKind.dropGlueNone ∨
        inst.defKind = InstanceDefKind.virtualDef ∨ inst.defKind = InstanceDefKind.intrinsic) →
      should_codegen_locally ctx inst = true) := by
  have hexcl : ∀ inst : Instance,
      (inst.defKind = InstanceDefKind.item ∨ inst.defKind = InstanceDefKind.dropGlueSome) →
      ctx.isForeignItem inst.defId = true →
      should_codegen_locally ctx inst = false := by
    intro inst hkind hforeign
    unfold should_codegen_locally defIdIfNotGuaranteedLocalCodegen
    rcases hkind with h | h <;> rw [h] <;> dsimp only <;> rw [hforeign] <;> rfl
  have hcoll : ∀ (inst : Instance) (isDirectCall : Bool),
      (inst.defKind = InstanceDefKind.item ∨ inst.defKind = InstanceDefKind.dropGlueSome) →
      ctx.isForeignItem inst.defId = true →
      collect_instance ctx inst isDirectCall = Except.ok [] := by
    intro inst isDirectCall hkind hforeign
    unfold collect_instance
    rcases hkind with h | h <;> rw [h] <;> dsimp only <;>
      rw [hexcl inst (by rw [h]; tauto) hforeign] <;> simp
  refine ⟨hexcl, hcoll, ?_, ?_⟩
  · intro d sub inst hres hkind hforeign
    unfold visit_rvalue
    dsimp only
    rw [hres]
    exact hcoll inst false hkind hforeign
  · intro inst hkind
    unfold should_codegen_locally defIdIfNotGuaranteedLocalCodegen
    rcases hkind with h | h | h | h | h | h | h | h <;> rw [h]

/-- Witness for C8 on the foreign demo instance `instH`. -/
theorem foreign_items_excluded_nonfatal_witness :
    (instH.defKind = InstanceDefKind.item ∨ instH.defKind = InstanceDefKind.dropGlueSome) ∧
    ctxDemo.isForeignItem instH.defId = true ∧
    should_codegen_locally ctxDemo instH = false ∧
    collect_instance ctxDemo instH false = Except.ok [] ∧
    ctxDemo.resolveForFnPtr 3 0 = some instH ∧
    visit_rvalue ctxDemo (RvalueE.castReifyFnPtr (FnTyE.fnDef 3 0)) = Except.ok [] ∧
    should_codegen_locally ctxDemo
      { defKind := InstanceDefKind.reifyShim, defId := 3, substs := 0 } = true := by
  obtain ⟨p1, p2, p3, p4⟩ := foreign_items_excluded_nonfatal ctxDemo
  have hkind : instH.defKind = InstanceDefKind.item ∨ instH.defKind = InstanceDefKind.dropGlueSome :=
    Or.inl rfl
  have hforeign : ctxDemo.isForeignItem instH.defId = true := rfl
  exact ⟨hkind, hforeign, p1 instH hkind hforeign, p2 instH false hkind hforeign, rfl,
    p3 3 0 instH rfl hkind hforeign,
    p4 { defKind := InstanceDefKind.reifyShim, defId := 3, substs := 0 } (by tauto)⟩

/-- C10: a direct call or explicit drop that resolves to empty destructor
glue (`DropGlue(_, None)`) adds no item; the same glue is collected when
reached indirectly (with `is_direct_call = false`, as the vtable and
reify-pointer paths do, and unconditionally as a static's destructor
obligation); and `collect_instance` never adds virtual-dispatch or intrinsic
instances to the collected set. -/
theorem empty_drop_glue_and_virtual_rules (ctx : Ctx) :
    (∀ ty : Ty, (ctx.resolveDropInPlace ty).defKind = InstanceDefKind.dropGlueNone →
      visit_terminator ctx (TerminatorE.drop ty) = Except.ok [] ∧
      visit_terminator ctx (TerminatorE.dropAndReplace ty) = Except.ok []) ∧
    (∀ (d sub : Nat) (inst : Instance), ctx.resolveFn d sub = some (some inst) →
      inst.defKind = InstanceDefKind.dropGlueNone →
      visit_terminator ctx (TerminatorE.call (CallTyE.fnDef d sub)) = Except.ok []) ∧
    (∀ inst : Instance, inst.defKind = InstanceDefKind.dropGlueNone →
      collect_instance ctx inst false = Except.ok [MonoItem.fn (ctx.polymorphize inst)]) ∧
    (∀ (afuel defId : Nat) (items : List MonoItem),
      visit_static ctx afuel defId = Except.ok items →
      MonoItem.fn (ctx.polymorphize (ctx.resolveDropInPlace (ctx.staticTy defId))) ∈ items) ∧
    (∀ (inst : Instance) (isDirectCall : Bool) (out : List MonoItem),
      (inst.defKind = InstanceDefKind.virtualDef ∨ inst.defKind = InstanceDefKind.intrinsic) →
      collect_instance ctx inst isDirectCall = Except.ok out → out = []) := by
  have hdirect : ∀ inst : Instance, inst.defKind = InstanceDefKind.dropGlueNone →
      collect_instance ctx inst true = Except.ok [] := by
    intro inst h
    unfold collect_instance
    rw [h]
    simp
  refine ⟨?_, ?_, ?_, ?_, ?_⟩
  · intro ty h
    constructor <;> (unfold visit_terminator; dsimp only; exact hdirect _ h)
  · intro d sub inst hres h
    unfold visit_terminator
    dsimp only
    rw [hres]
    exact hdirect inst h
  · intro inst h
    unfold collect_instance
    rw [h]
    simp [should_codegen_locally, defIdIfNotGuaranteedLocalCodegen, h]
  · intro afuel defId items hvs
    unfold visit_static at hvs
    cases hev : ctx.evalStaticInitializer defId with
    | none => rw [hev] at hvs; exact Except.noConfusion hvs
    | some prov =>
      rw [hev] at hvs
      dsimp only at hvs
      cases hw : walk_alloc_ids ctx afuel prov with
      | error e => rw [hw] at hvs; exact Except.noConfusion hvs
      | ok more =>
        rw [hw] at hvs
        injection hvs with h2
        rw [← h2]
        exact List.mem_cons_self _ _
  · intro inst isDirectCall out hkind hcoll
    unfold collect_instance at hcoll
    rcases hkind with h | h <;> rw [h] at hcoll <;> dsimp only at hcoll <;>
      cases isDirectCall <;> simp at hcoll
    all_goals exact hcoll

/-- Witness for C10 at the demo context. -/
theorem empty_drop_glue_and_virtual_rules_witness :
    (ctxDemo.resolveDropInPlace (Ty.concrete 9)).defKind = InstanceDefKind.dropGlueNone ∧
    visit_terminator ctxDemo (TerminatorE.drop (Ty.concrete 9)) = Except.ok [] ∧
    collect_instance ctxDemo instDropS false = Except.ok [MonoItem.fn instDropS] ∧
    visit_static ctxDemo 2 5 = Except.ok [MonoItem.fn instDropS] ∧
    MonoItem.fn instDropS ∈ [MonoItem.fn instDropS] ∧
    collect_instance ctxDemo { defKind := InstanceDefKind.virtualDef, defId := 0, substs := 0 }
      true = Except.ok [] := by
  obtain ⟨p1, p2, p3, p4, p5⟩ := empty_drop_glue_and_virtual_rules ctxDemo
  have h1 : (ctxDemo.resolveDropInPlace (Ty.concrete 9)).defKind
      = InstanceDefKind.dropGlueNone := rfl
  have hvs : visit_static ctxDemo 2 5 = Except.ok [MonoItem.fn instDropS] := by rfl
  refine ⟨h1, (p1 (Ty.concrete 9) h1).1, ?_, hvs, ?_, ?_⟩
  · have := p3 instDropS rfl
    simpa using this
  · simpa using p4 2 5 [MonoItem.fn instDropS] hvs
  · have hv : collect_instance ctxDemo
        { defKind := InstanceDefKind.virtualDef, defId := 0, substs := 0 } true
        = Except.ok [] := by rfl
    have := p5 { defKind := InstanceDefKind.virtualDef, defId := 0, substs := 0 } true []
      (Or.inl rfl) hv
    exact hv

end KaniReachability
